import Mathlib

/-!
Verification development for the ORCA-1 G-code motion-writing core.

The definitions below are a shallow embedding of the code in
`src/libslic3r/GCodeWriter.cpp` and `src/libslic3r/GCode/SpiralVase.cpp`:
`double` values are modelled as rationals, the emitted G-code text is
modelled as structured emitted lines, and fallible code (a failed C
`assert`) is modelled with `Option`.
-/

set_option linter.unusedVariables false

namespace ORCA

/-! ### Decimal digit strings

`natDigitsBE n` is the base-10 representation of `n`, most significant digit
first, empty for `0` (mirroring `Nat.digits`).  It is defined with explicit
fuel so that it reduces in the kernel; `natDigitsBE_eq_digits` connects it to
`Nat.digits`. -/

def natDigitsBEAux : ℕ → ℕ → List Char
  | _, 0 => []
  | 0, _ + 1 => []
  | fuel + 1, n + 1 =>
    natDigitsBEAux fuel ((n + 1) / 10) ++ [Nat.digitChar ((n + 1) % 10)]

def natDigitsBE (n : ℕ) : List Char := natDigitsBEAux n n

theorem natDigitsBEAux_eq (fuel n : ℕ) (h : n ≤ fuel) :
    natDigitsBEAux fuel n = ((Nat.digits 10 n).map Nat.digitChar).reverse := by
  induction fuel generalizing n with
  | zero =>
    interval_cases n
    simp [natDigitsBEAux]
  | succ fuel ih =>
    cases n with
    | zero => simp [natDigitsBEAux]
    | succ n =>
      rw [natDigitsBEAux, ih ((n + 1) / 10) (by omega),
        Nat.digits_add_two_add_one (b := 8)]
      simp

theorem natDigitsBE_eq_digits (n : ℕ) :
    natDigitsBE n = ((Nat.digits 10 n).map Nat.digitChar).reverse :=
  natDigitsBEAux_eq n n le_rfl

theorem natDigitsBE_zero : natDigitsBE 0 = [] := rfl

theorem natDigitsBE_length (n : ℕ) :
    (natDigitsBE n).length = (Nat.digits 10 n).length := by
  rw [natDigitsBE_eq_digits]; simp

theorem natDigitsBE_eq_nil_iff (n : ℕ) : natDigitsBE n = [] ↔ n = 0 := by
  rw [natDigitsBE_eq_digits]
  simp [Nat.digits_eq_nil_iff_eq_zero]

/-- Every character produced by `natDigitsBE` is one of the ten digit
characters. -/
theorem mem_natDigitsBE {c : Char} {n : ℕ} (h : c ∈ natDigitsBE n) :
    c ∈ ['0', '1', '2', '3', '4', '5', '6', '7', '8', '9'] := by
  rw [natDigitsBE_eq_digits, List.mem_reverse, List.mem_map] at h
  obtain ⟨d, hd, rfl⟩ := h
  have hlt : d < 10 := Nat.digits_lt_base (by norm_num) hd
  interval_cases d <;> decide

/-! ### Reading a digit string back -/

def charDigit (c : Char) : ℕ := c.toNat - 48

def ofDigitsBE (l : List Char) : ℕ := l.foldl (fun a c => 10 * a + charDigit c) 0

theorem charDigit_digitChar {d : ℕ} (h : d < 10) :
    charDigit (Nat.digitChar d) = d := by
  interval_cases d <;> decide

theorem ofDigitsBE_foldl (l : List Char) (a : ℕ) :
    l.foldl (fun a c => 10 * a + charDigit c) a = a * 10 ^ l.length + ofDigitsBE l := by
  induction l generalizing a with
  | nil => simp [ofDigitsBE]
  | cons c l ih =>
    have h1 : ofDigitsBE (c :: l) = charDigit c * 10 ^ l.length + ofDigitsBE l := by
      show l.foldl _ (10 * 0 + charDigit c) = _
      rw [ih (10 * 0 + charDigit c)]
      ring
    show l.foldl _ (10 * a + charDigit c) = _
    rw [ih (10 * a + charDigit c), h1, List.length_cons, pow_succ]
    ring

theorem ofDigitsBE_append (a b : List Char) :
    ofDigitsBE (a ++ b) = ofDigitsBE a * 10 ^ b.length + ofDigitsBE b := by
  unfold ofDigitsBE
  rw [List.foldl_append, ofDigitsBE_foldl]
  rfl

theorem ofDigitsBE_natDigitsBE (n : ℕ) : ofDigitsBE (natDigitsBE n) = n := by
  rw [natDigitsBE_eq_digits]
  induction n using Nat.strong_induction_on with
  | _ n ih =>
    rcases Nat.eq_zero_or_pos n with rfl | hn
    · simp [ofDigitsBE]
    · rw [Nat.digits_of_two_le_of_pos (by norm_num) hn]
      simp only [List.map_cons, List.reverse_cons]
      rw [ofDigitsBE_append]
      have hd : n / 10 < n := Nat.div_lt_self hn (by norm_num)
      rw [ih (n / 10) hd]
      simp [ofDigitsBE, charDigit_digitChar (Nat.mod_lt n (by norm_num : (0:ℕ) < 10))]
      omega

theorem ofDigitsBE_replicate_zero (k : ℕ) :
    ofDigitsBE (List.replicate k '0') = 0 := by
  induction k with
  | zero => rfl
  | succ k ih =>
    rw [List.replicate_succ]
    show List.foldl _ (10 * 0 + charDigit '0') _ = 0
    have : charDigit '0' = 0 := rfl
    rw [this]
    simpa [ofDigitsBE] using ih

/-- A list all of whose members equal `'0'` reads back as `0`. -/
theorem ofDigitsBE_all_zero {l : List Char} (h : ∀ c ∈ l, c = '0') :
    ofDigitsBE l = 0 := by
  have : l = List.replicate l.length '0' := List.eq_replicate_of_mem h
  rw [this, ofDigitsBE_replicate_zero]

/-! ### Zero padding and trailing-zero stripping -/

/-- Left-pad a digit string with `'0'` up to width `d`
(`GCodeFormatter::emit_axis`, the `writen_digits < digits` branch). -/
def padTo (d : ℕ) (l : List Char) : List Char :=
  List.replicate (d - l.length) '0' ++ l

theorem padTo_length {d : ℕ} {l : List Char} (h : l.length ≤ d) :
    (padTo d l).length = d := by
  simp [padTo]; omega

theorem padTo_length_of_ge {d : ℕ} {l : List Char} (h : d ≤ l.length) :
    padTo d l = l := by
  simp [padTo, Nat.sub_eq_zero_of_le h]

theorem ofDigitsBE_padTo (d : ℕ) (l : List Char) :
    ofDigitsBE (padTo d l) = ofDigitsBE l := by
  rw [padTo, ofDigitsBE_append, ofDigitsBE_replicate_zero]
  ring

/-- Strip all trailing `'0'` characters
(`emit_axis`, the loop `if (*ptr != '0') break; ptr--`). -/
def stripZeros (l : List Char) : List Char :=
  (l.reverse.dropWhile (· == '0')).reverse

theorem stripZeros_spec (l : List Char) :
    l = stripZeros l ++ List.replicate (l.length - (stripZeros l).length) '0' := by
  have h1 : l.reverse = l.reverse.takeWhile (· == '0') ++ l.reverse.dropWhile (· == '0') :=
    (List.takeWhile_append_dropWhile _ _).symm
  have h2 : ∀ c ∈ l.reverse.takeWhile (· == '0'), c = '0' := by
    intro c hc
    have := List.mem_takeWhile_imp hc
    simpa using this
  have h3 : l = stripZeros l ++ (l.reverse.takeWhile (· == '0')).reverse := by
    conv_lhs => rw [← l.reverse_reverse, h1]
    rw [List.reverse_append]
    rfl
  have h4 : (l.reverse.takeWhile (· == '0')).reverse =
      List.replicate ((l.reverse.takeWhile (· == '0')).reverse).length '0' :=
    List.eq_replicate_of_mem fun c hc => h2 c (by simpa using hc)
  have h5 : l.length = (stripZeros l).length +
      ((l.reverse.takeWhile (· == '0')).reverse).length := by
    have := congrArg List.length h3
    simpa using this
  conv_lhs => rw [h3, h4]
  congr 2
  omega

theorem stripZeros_getLast_ne_zero (l : List Char) :
    (stripZeros l).getLast? ≠ some '0' := by
  rw [stripZeros, List.getLast?_reverse]
  intro h
  have hne : l.reverse.dropWhile (· == '0') ≠ [] := by
    intro hnil; rw [hnil] at h; simp at h
  have := List.head?_dropWhile_not (· == '0') l.reverse
  rw [h] at this
  simp at this

theorem stripZeros_eq_nil_iff (l : List Char) :
    stripZeros l = [] ↔ ∀ c ∈ l, c = '0' := by
  constructor
  · intro h c hc
    have hl := stripZeros_spec l
    rw [h, List.nil_append] at hl
    rw [hl, List.mem_replicate] at hc
    exact hc.2
  · intro h
    rw [stripZeros, List.reverse_eq_nil_iff, List.dropWhile_eq_nil_iff]
    intro c hc
    simp [h c (by simpa using hc)]

theorem stripZeros_sub (l : List Char) : ∀ c ∈ stripZeros l, c ∈ l := by
  intro c hc
  rw [stripZeros_spec l]
  exact List.mem_append_left _ hc

/-- Value and scale of a stripped fraction: reading the stripped list and
rescaling recovers the value of the original list. -/
theorem ofDigitsBE_stripZeros (l : List Char) :
    ofDigitsBE l =
      ofDigitsBE (stripZeros l) * 10 ^ (l.length - (stripZeros l).length) := by
  conv_lhs => rw [stripZeros_spec l]
  rw [ofDigitsBE_append, ofDigitsBE_replicate_zero, List.length_replicate]
  ring

/-! ### `GCodeFormatter::emit_axis` -/

/-- `std::round`: round half away from zero. -/
def roundHalfAway (q : ℚ) : ℤ :=
  if 0 ≤ q then ⌊q + 1 / 2⌋ else -⌊-q + 1 / 2⌋

/-- The integer written by `std::to_chars` for `v_int`: `"0"` for zero,
otherwise the decimal digits of the absolute value (the sign is a separate
leading `'-'`). -/
def natRepr (n : ℕ) : List Char :=
  if n = 0 then ['0'] else natDigitsBE n

/-- The digit-shuffling pipeline of `GCodeFormatter::emit_axis` applied to the
already-rounded integer `vInt` (every step mirrors one buffer operation of the
C++ code):
* `padded`: pad the written digits with zeros up to `digits` (`writen_digits <
  digits` branch);
* `head`/insertion of `'.'` before the last `digits` characters;
* strip trailing `'0'`s, then a trailing `'.'`;
* if nothing remains, or only a `'-'` remains, append one `'0'`. -/
def emitPadded (vInt : ℤ) (d : ℕ) : List Char :=
  padTo d (natRepr vInt.natAbs)

def emitHead (vInt : ℤ) (d : ℕ) : List Char :=
  (if vInt < 0 then ['-'] else []) ++
    (emitPadded vInt d).take ((emitPadded vInt d).length - d)

def emitFrac (vInt : ℤ) (d : ℕ) : List Char :=
  stripZeros ((emitPadded vInt d).drop ((emitPadded vInt d).length - d))

def emitRes (vInt : ℤ) (d : ℕ) : List Char :=
  if emitFrac vInt d = [] then emitHead vInt d
  else emitHead vInt d ++ '.' :: emitFrac vInt d

def emitCore (vInt : ℤ) (d : ℕ) : List Char :=
  if emitRes vInt d = [] then ['0']
  else if (emitRes vInt d).getLast? = some '-' then emitRes vInt d ++ ['0']
  else emitRes vInt d

/-- `GCodeFormatter::emit_axis` (GCodeWriter.cpp:739-796): the token appended
after the axis letter for value `v` at `d` decimal digits. -/
def emit_axis (v : ℚ) (d : ℕ) : List Char :=
  emitCore (roundHalfAway (v * 10 ^ d)) d

/-- Reference fixed-point rendering of the scaled integer `n` at `d` decimal
digits: sign, then integer-part digits (empty when the integer part is zero
and `n ≠ 0`), then the fractional digits with trailing zeros stripped and no
trailing decimal point.  `emitCore_eq_fixedRender` proves that
`emit_axis` produces exactly this. -/
def fixedRender (n : ℤ) (d : ℕ) : List Char :=
  if n = 0 then ['0']
  else
    (if n < 0 then ['-'] else []) ++
    natDigitsBE (n.natAbs / 10 ^ d) ++
    (if stripZeros (padTo d (natDigitsBE (n.natAbs % 10 ^ d))) = [] then []
     else '.' :: stripZeros (padTo d (natDigitsBE (n.natAbs % 10 ^ d))))

/-- Parse an unsigned fixed-point token back to a rational. -/
def parseMag (l : List Char) : ℚ :=
  let ip := l.takeWhile (fun c => !(c == '.'))
  let fp := (l.dropWhile (fun c => !(c == '.'))).drop 1
  (ofDigitsBE ip : ℚ) + (ofDigitsBE fp : ℚ) / 10 ^ fp.length

/-- Parse a signed fixed-point token back to a rational. -/
def parseFixed (l : List Char) : ℚ :=
  if l.head? = some '-' then -parseMag (l.drop 1) else parseMag l

/-! ### Supporting list lemmas -/

theorem getLast?_append_right {a b : List Char} (h : b ≠ []) :
    (a ++ b).getLast? = b.getLast? := by
  rw [List.getLast?_append]
  obtain ⟨x, hx⟩ := Option.isSome_iff_exists.mp (List.getLast?_isSome.mpr h)
  rw [hx]
  rfl

theorem takeWhile_append_all {p : Char → Bool} {a : List Char} (b : List Char)
    (h : ∀ c ∈ a, p c = true) :
    (a ++ b).takeWhile p = a ++ b.takeWhile p := by
  induction a with
  | nil => simp
  | cons c a ih =>
    simp only [List.cons_append, List.takeWhile_cons, h c (by simp)]
    rw [ih fun x hx => h x (by simp [hx])]
    simp

theorem dropWhile_append_all {p : Char → Bool} {a : List Char} (b : List Char)
    (h : ∀ c ∈ a, p c = true) :
    (a ++ b).dropWhile p = b.dropWhile p := by
  induction a with
  | nil => simp
  | cons c a ih =>
    simp only [List.cons_append, List.dropWhile_cons, h c (by simp)]
    exact ih fun x hx => h x (by simp [hx])

theorem mem_padTo {c : Char} {d : ℕ} {l : List Char} (h : c ∈ padTo d l) :
    c = '0' ∨ c ∈ l := by
  rcases List.mem_append.mp h with h | h
  · exact Or.inl (List.eq_of_mem_replicate h)
  · exact Or.inr h

/-- Digit characters are neither `'-'` nor `'.'`. -/
theorem digit_char_ne {c : Char}
    (h : c ∈ ['0', '1', '2', '3', '4', '5', '6', '7', '8', '9']) :
    c ≠ '-' ∧ c ≠ '.' := by
  fin_cases h <;> decide

theorem natDigitsBE_char_ne {c : Char} {n : ℕ} (h : c ∈ natDigitsBE n) :
    c ≠ '-' ∧ c ≠ '.' :=
  digit_char_ne (mem_natDigitsBE h)

theorem padTo_char_ne {c : Char} {d n : ℕ} (h : c ∈ padTo d (natDigitsBE n)) :
    c ≠ '-' ∧ c ≠ '.' := by
  rcases mem_padTo h with rfl | h
  · decide
  · exact natDigitsBE_char_ne h

/-! ### Digit-length bounds and the digit-splitting identity -/

theorem natDigitsBE_len_le {m d : ℕ} (h : m < 10 ^ d) :
    (natDigitsBE m).length ≤ d := by
  rw [natDigitsBE_length]
  by_contra hlen
  push_neg at hlen
  rcases Nat.eq_zero_or_pos m with rfl | hm
  · simp at hlen
  · have h1 : (10 : ℕ) ^ (Nat.digits 10 m).length ≤ 10 * m :=
      Nat.base_pow_length_digits_le 10 m (by norm_num) (Nat.pos_iff_ne_zero.mp hm)
    have h2 : (10 : ℕ) ^ (d + 1) ≤ 10 ^ (Nat.digits 10 m).length :=
      Nat.pow_le_pow_right (by norm_num) hlen
    have := (pow_succ 10 d) ▸ le_trans h2 h1
    omega

theorem lt_pow_of_natDigitsBE_len_le {m d : ℕ} (h : (natDigitsBE m).length ≤ d) :
    m < 10 ^ d := by
  rw [natDigitsBE_length] at h
  calc m < 10 ^ (Nat.digits 10 m).length := Nat.lt_base_pow_length_digits (by norm_num)
    _ ≤ 10 ^ d := Nat.pow_le_pow_right (by norm_num) h

/-- Splitting the decimal representation at the `10^d` boundary: the digits of
`10^d * q + r` are the digits of `q` followed by the `d`-wide zero-padded
digits of `r`. -/
theorem natDigitsBE_split {q r : ℕ} (d : ℕ) (hq : 0 < q) (hr : r < 10 ^ d) :
    natDigitsBE (10 ^ d * q + r) = natDigitsBE q ++ padTo d (natDigitsBE r) := by
  have hlen : (Nat.digits 10 r).length ≤ d := by
    have := natDigitsBE_len_le hr
    rwa [natDigitsBE_length] at this
  have key := Nat.digits_append_zeroes_append_digits
    (b := 10) (k := d - (Nat.digits 10 r).length) (m := q) (n := r) (by norm_num) hq
  have harg : r + 10 ^ ((Nat.digits 10 r).length + (d - (Nat.digits 10 r).length)) * q =
      10 ^ d * q + r := by
    rw [Nat.add_sub_cancel' hlen]
    ring
  rw [harg] at key
  rw [natDigitsBE_eq_digits, ← key, natDigitsBE_eq_digits q, natDigitsBE_eq_digits r,
    padTo]
  simp [Nat.digitChar]

/-! ### `emit_axis` produces exactly the reference rendering -/

theorem getLast?_ne_of_forall {l : List Char} (x : Char) (h : ∀ c ∈ l, c ≠ x) :
    l.getLast? ≠ some x := by
  intro hc
  exact h x (List.mem_of_mem_getLast? hc) rfl

theorem emitCore_zero (d : ℕ) : emitCore 0 d = ['0'] := by
  cases d with
  | zero => decide
  | succ k =>
    have hpad : emitPadded 0 (k + 1) = List.replicate (k + 1) '0' := by
      show padTo (k + 1) (natRepr (Int.natAbs 0)) = _
      have h0 : natRepr (Int.natAbs 0) = ['0'] := rfl
      rw [h0, padTo]
      show List.replicate (k + 1 - 1) '0' ++ ['0'] = _
      rw [Nat.add_sub_cancel, ← List.replicate_succ']
    have hfrac : emitFrac 0 (k + 1) = [] := by
      rw [emitFrac, hpad]
      simp only [List.length_replicate, Nat.sub_self, List.drop_zero]
      rw [stripZeros_eq_nil_iff]
      exact fun c hc => List.eq_of_mem_replicate hc
    have hhead : emitHead 0 (k + 1) = [] := by
      rw [emitHead, hpad]
      simp
    have hres : emitRes 0 (k + 1) = [] := by
      rw [emitRes, if_pos hfrac, hhead]
    rw [emitCore, if_pos hres]

theorem emitCore_eq_fixedRender (n : ℤ) (d : ℕ) :
    emitCore n d = fixedRender n d := by
  rcases eq_or_ne n 0 with rfl | hn
  · rw [emitCore_zero, fixedRender, if_pos rfl]
  have hm0 : n.natAbs ≠ 0 := Int.natAbs_ne_zero.mpr hn
  have hrep : natRepr n.natAbs = natDigitsBE n.natAbs := if_neg hm0
  by_cases hlen : (natDigitsBE n.natAbs).length ≤ d
  · -- the scaled integer has at most `d` digits: empty integer part
    have hmlt : n.natAbs < 10 ^ d := lt_pow_of_natDigitsBE_len_le hlen
    have hdiv : n.natAbs / 10 ^ d = 0 := Nat.div_eq_of_lt hmlt
    have hmod : n.natAbs % 10 ^ d = n.natAbs := Nat.mod_eq_of_lt hmlt
    have hpadlen : (emitPadded n d).length = d := by
      rw [emitPadded, hrep]
      exact padTo_length hlen
    have hhead : emitHead n d = (if n < 0 then ['-'] else []) := by
      rw [emitHead, hpadlen, Nat.sub_self, List.take_zero, List.append_nil]
    have hfrac : emitFrac n d = stripZeros (padTo d (natDigitsBE n.natAbs)) := by
      rw [emitFrac, hpadlen, Nat.sub_self, List.drop_zero, emitPadded, hrep]
    have hfne : emitFrac n d ≠ [] := by
      rw [hfrac, Ne, stripZeros_eq_nil_iff]
      intro hall
      refine hm0 ?_
      have h1 := ofDigitsBE_all_zero hall
      rwa [ofDigitsBE_padTo, ofDigitsBE_natDigitsBE] at h1
    have hres : emitRes n d = (if n < 0 then ['-'] else []) ++ '.' :: emitFrac n d := by
      rw [emitRes, if_neg hfne, hhead]
    have hresne : emitRes n d ≠ [] := by
      rw [hres]
      intro h
      exact List.cons_ne_nil _ _ (List.append_eq_nil.mp h).2
    have hlast : (emitRes n d).getLast? ≠ some '-' := by
      rw [hres, getLast?_append_right (List.cons_ne_nil _ _),
        show ('.' :: emitFrac n d) = ['.'] ++ emitFrac n d from rfl,
        getLast?_append_right hfne]
      refine getLast?_ne_of_forall _ fun c hc => ?_
      exact (padTo_char_ne (stripZeros_sub _ c (by rwa [hfrac] at hc))).1
    have hfne' : stripZeros (padTo d (natDigitsBE n.natAbs)) ≠ [] := by
      rwa [hfrac] at hfne
    rw [emitCore, if_neg hresne, if_neg hlast, hres, fixedRender, if_neg hn, hdiv, hmod,
      natDigitsBE_zero, hfrac, if_neg hfne']
    simp
  · -- at least one integer-part digit
    push_neg at hlen
    have hge : 10 ^ d ≤ n.natAbs := by
      by_contra hlt
      push_neg at hlt
      exact absurd (natDigitsBE_len_le hlt) (by omega)
    have hq0 : 0 < n.natAbs / 10 ^ d := Nat.div_pos hge (pow_pos (by norm_num) d)
    have hrlt : n.natAbs % 10 ^ d < 10 ^ d := Nat.mod_lt _ (pow_pos (by norm_num) d)
    have hsplit : natDigitsBE n.natAbs =
        natDigitsBE (n.natAbs / 10 ^ d) ++ padTo d (natDigitsBE (n.natAbs % 10 ^ d)) := by
      conv_lhs => rw [← Nat.div_add_mod n.natAbs (10 ^ d)]
      exact natDigitsBE_split d hq0 hrlt
    have hlenr : (padTo d (natDigitsBE (n.natAbs % 10 ^ d))).length = d :=
      padTo_length (natDigitsBE_len_le hrlt)
    have hpad : emitPadded n d = natDigitsBE n.natAbs := by
      rw [emitPadded, hrep]
      exact padTo_length_of_ge (by omega)
    have hlenm : (natDigitsBE n.natAbs).length =
        (natDigitsBE (n.natAbs / 10 ^ d)).length + d := by
      rw [hsplit, List.length_append, hlenr]
    have htake : (natDigitsBE n.natAbs).take ((natDigitsBE n.natAbs).length - d) =
        natDigitsBE (n.natAbs / 10 ^ d) := by
      rw [hlenm, Nat.add_sub_cancel, hsplit]
      exact List.take_left _ _
    have hdrop : (natDigitsBE n.natAbs).drop ((natDigitsBE n.natAbs).length - d) =
        padTo d (natDigitsBE (n.natAbs % 10 ^ d)) := by
      rw [hlenm, Nat.add_sub_cancel, hsplit]
      exact List.drop_left _ _
    have hhead : emitHead n d =
        (if n < 0 then ['-'] else []) ++ natDigitsBE (n.natAbs / 10 ^ d) := by
      rw [emitHead, hpad, htake]
    have hfrac : emitFrac n d = stripZeros (padTo d (natDigitsBE (n.natAbs % 10 ^ d))) := by
      rw [emitFrac, hpad, hdrop]
    have hqne : natDigitsBE (n.natAbs / 10 ^ d) ≠ [] := by
      rw [Ne, natDigitsBE_eq_nil_iff]
      omega
    by_cases hfr : emitFrac n d = []
    · have hres : emitRes n d =
          (if n < 0 then ['-'] else []) ++ natDigitsBE (n.natAbs / 10 ^ d) := by
        rw [emitRes, if_pos hfr, hhead]
      have hresne : emitRes n d ≠ [] := by
        rw [hres]
        intro h
        exact hqne (List.append_eq_nil.mp h).2
      have hlast : (emitRes n d).getLast? ≠ some '-' := by
        rw [hres, getLast?_append_right hqne]
        exact getLast?_ne_of_forall _ fun c hc => (natDigitsBE_char_ne hc).1
      have hfr' : stripZeros (padTo d (natDigitsBE (n.natAbs % 10 ^ d))) = [] := by
        rwa [hfrac] at hfr
      rw [emitCore, if_neg hresne, if_neg hlast, hres, fixedRender, if_neg hn, hfr']
      simp
    · have hres : emitRes n d = ((if n < 0 then ['-'] else []) ++
          natDigitsBE (n.natAbs / 10 ^ d)) ++ '.' :: emitFrac n d := by
        rw [emitRes, if_neg hfr, hhead]
      have hresne : emitRes n d ≠ [] := by
        rw [hres]
        intro h
        exact List.cons_ne_nil _ _ (List.append_eq_nil.mp h).2
      have hlast : (emitRes n d).getLast? ≠ some '-' := by
        rw [hres, getLast?_append_right (List.cons_ne_nil _ _),
          show ('.' :: emitFrac n d) = ['.'] ++ emitFrac n d from rfl,
          getLast?_append_right hfr]
        refine getLast?_ne_of_forall _ fun c hc => ?_
        exact (padTo_char_ne (stripZeros_sub _ c (by rwa [hfrac] at hc))).1
      have hfr' : stripZeros (padTo d (natDigitsBE (n.natAbs % 10 ^ d))) ≠ [] := by
        rwa [hfrac] at hfr
      rw [emitCore, if_neg hresne, if_neg hlast, hres, fixedRender, if_neg hn, hfrac,
        if_neg hfr']

/-! ### Reading the rendered token back -/

theorem head?_ne_of_forall {l : List Char} (x : Char) (h : ∀ c ∈ l, c ≠ x) :
    l.head? ≠ some x := by
  intro hc
  exact h x (List.mem_of_mem_head? hc) rfl

theorem parseMag_split (a f : List Char) (ha : ∀ c ∈ a, c ≠ '.') :
    parseMag (a ++ '.' :: f) = (ofDigitsBE a : ℚ) + (ofDigitsBE f : ℚ) / 10 ^ f.length := by
  have hp : ∀ c ∈ a, (!(c == '.')) = true := by
    intro c hc
    simpa using ha c hc
  rw [parseMag]
  have h1 : (a ++ '.' :: f).takeWhile (fun c => !(c == '.')) = a := by
    rw [takeWhile_append_all _ hp]
    simp [List.takeWhile_cons]
  have h2 : ((a ++ '.' :: f).dropWhile (fun c => !(c == '.'))).drop 1 = f := by
    rw [dropWhile_append_all _ hp]
    simp [List.dropWhile_cons]
  rw [h1, h2]

theorem parseMag_nodot (a : List Char) (ha : ∀ c ∈ a, c ≠ '.') :
    parseMag a = (ofDigitsBE a : ℚ) := by
  have hp : ∀ c ∈ a, (!(c == '.')) = true := by
    intro c hc
    simpa using ha c hc
  rw [parseMag]
  have h1 : a.takeWhile (fun c => !(c == '.')) = a := by
    have := takeWhile_append_all (p := fun c => !(c == '.')) [] hp
    simpa using this
  have h2 : a.dropWhile (fun c => !(c == '.')) = [] := by
    have := dropWhile_append_all (p := fun c => !(c == '.')) [] hp
    simpa using this
  rw [h1, h2]
  simp [ofDigitsBE]

theorem stripZeros_length_le (l : List Char) : (stripZeros l).length ≤ l.length := by
  conv_rhs => rw [stripZeros_spec l]
  simp

theorem strip_val_q (l : List Char) :
    (ofDigitsBE (stripZeros l) : ℚ) / 10 ^ (stripZeros l).length =
      (ofDigitsBE l : ℚ) / 10 ^ l.length := by
  have h := ofDigitsBE_stripZeros l
  have hle := stripZeros_length_le l
  rw [div_eq_div_iff (by positivity) (by positivity)]
  have hcast : (ofDigitsBE l : ℚ) =
      (ofDigitsBE (stripZeros l) : ℚ) * 10 ^ (l.length - (stripZeros l).length) := by
    exact_mod_cast congrArg (Nat.cast : ℕ → ℚ) h
  have hexp : l.length - (stripZeros l).length + (stripZeros l).length = l.length := by
    omega
  rw [hcast, mul_assoc, ← pow_add, hexp]

/-- The unsigned part of `fixedRender` reads back as `m / 10^d`. -/
theorem parseMag_magCore (m d : ℕ) :
    parseMag (natDigitsBE (m / 10 ^ d) ++
      (if stripZeros (padTo d (natDigitsBE (m % 10 ^ d))) = [] then []
       else '.' :: stripZeros (padTo d (natDigitsBE (m % 10 ^ d))))) = (m : ℚ) / 10 ^ d := by
  have hpow : (0 : ℕ) < 10 ^ d := pow_pos (by norm_num) d
  by_cases hfr : stripZeros (padTo d (natDigitsBE (m % 10 ^ d))) = []
  · rw [if_pos hfr, List.append_nil,
      parseMag_nodot _ (fun c hc => (natDigitsBE_char_ne hc).2), ofDigitsBE_natDigitsBE]
    have hr0 : m % 10 ^ d = 0 := by
      have h1 := ofDigitsBE_all_zero ((stripZeros_eq_nil_iff _).mp hfr)
      rwa [ofDigitsBE_padTo, ofDigitsBE_natDigitsBE] at h1
    have hdm : m / 10 ^ d * 10 ^ d = m := by
      have h := Nat.div_add_mod m (10 ^ d)
      rw [hr0, add_zero] at h
      rw [mul_comm]
      exact h
    rw [eq_div_iff (by positivity)]
    exact_mod_cast congrArg (Nat.cast : ℕ → ℚ) hdm
  · rw [if_neg hfr, parseMag_split _ _ (fun c hc => (natDigitsBE_char_ne hc).2),
      ofDigitsBE_natDigitsBE]
    have hval : (ofDigitsBE (stripZeros (padTo d (natDigitsBE (m % 10 ^ d)))) : ℚ) /
        10 ^ (stripZeros (padTo d (natDigitsBE (m % 10 ^ d)))).length =
        ((m % 10 ^ d : ℕ) : ℚ) / 10 ^ d := by
      have h := strip_val_q (padTo d (natDigitsBE (m % 10 ^ d)))
      rw [ofDigitsBE_padTo, ofDigitsBE_natDigitsBE,
        padTo_length (natDigitsBE_len_le (Nat.mod_lt _ hpow))] at h
      exact h
    rw [hval]
    have hdm := Nat.div_add_mod m (10 ^ d)
    have hcast : ((10 ^ d * (m / 10 ^ d) + m % 10 ^ d : ℕ) : ℚ) = (m : ℚ) :=
      congrArg (Nat.cast : ℕ → ℚ) hdm
    push_cast at hcast
    rw [eq_div_iff (by positivity : (10 : ℚ) ^ d ≠ 0), add_mul,
      div_mul_cancel₀ _ (by positivity : (10 : ℚ) ^ d ≠ 0)]
    linarith

theorem magCore_ne_dash (m d : ℕ) :
    ∀ c ∈ natDigitsBE (m / 10 ^ d) ++
      (if stripZeros (padTo d (natDigitsBE (m % 10 ^ d))) = [] then []
       else '.' :: stripZeros (padTo d (natDigitsBE (m % 10 ^ d)))), c ≠ '-' := by
  intro c hc
  rcases List.mem_append.mp hc with h | h
  · exact (natDigitsBE_char_ne h).1
  · split at h
    · simp at h
    · rcases List.mem_cons.mp h with rfl | h
      · decide
      · exact (padTo_char_ne (stripZeros_sub _ c h)).1

theorem parseFixed_fixedRender (n : ℤ) (d : ℕ) :
    parseFixed (fixedRender n d) = (n : ℚ) / 10 ^ d := by
  rcases eq_or_ne n 0 with rfl | hn
  · rw [fixedRender, if_pos rfl, parseFixed, if_neg (by decide),
      parseMag_nodot _ (by decide)]
    have h0 : ofDigitsBE ['0'] = 0 := by decide
    rw [h0]
    simp
  · rcases lt_or_gt_of_ne hn with hneg | hpos
    · rw [fixedRender, if_neg hn, if_pos hneg, List.append_assoc, List.singleton_append,
        parseFixed]
      rw [if_pos (by simp), List.drop_one, List.tail_cons, parseMag_magCore]
      have habs : ((n.natAbs : ℕ) : ℚ) = -(n : ℚ) := by
        rw [Int.cast_natAbs, abs_of_neg (by exact_mod_cast hneg)]
        push_cast
        ring
      rw [habs]
      ring
    · rw [fixedRender, if_neg hn, if_neg (by omega), List.nil_append, parseFixed,
        if_neg (head?_ne_of_forall _ (magCore_ne_dash n.natAbs d)), parseMag_magCore]
      have habs : ((n.natAbs : ℕ) : ℚ) = (n : ℚ) := by
        rw [Int.cast_natAbs, abs_of_pos (by exact_mod_cast hpos)]
      rw [habs]

theorem fixedRender_head_dash (n : ℤ) (d : ℕ) :
    (fixedRender n d).head? = some '-' ↔ n < 0 := by
  rcases eq_or_ne n 0 with rfl | hn
  · rw [fixedRender, if_pos rfl]
    constructor
    · intro h
      exact absurd h (by decide)
    · intro h
      exact absurd h (by decide)
  · rcases lt_or_gt_of_ne hn with hneg | hpos
    · rw [fixedRender, if_neg hn, if_pos hneg, List.append_assoc, List.singleton_append]
      simp [hneg]
    · rw [fixedRender, if_neg hn, if_neg (by omega), List.nil_append]
      constructor
      · intro h
        exact absurd h (head?_ne_of_forall _ (magCore_ne_dash n.natAbs d))
      · intro h
        omega

theorem mem_sign_dash {n : ℤ} {c : Char}
    (h : c ∈ (if n < 0 then ['-'] else ([] : List Char))) : c = '-' := by
  split at h
  · simpa using h
  · simp at h

theorem fixedRender_trailing (n : ℤ) (d : ℕ) (h : '.' ∈ fixedRender n d) :
    (fixedRender n d).getLast? ≠ some '0' ∧ (fixedRender n d).getLast? ≠ some '.' := by
  rcases eq_or_ne n 0 with rfl | hn
  · rw [fixedRender, if_pos rfl] at h
    exact absurd h (by decide)
  · rw [fixedRender, if_neg hn] at h ⊢
    by_cases hfr : stripZeros (padTo d (natDigitsBE (n.natAbs % 10 ^ d))) = []
    · exfalso
      rw [if_pos hfr, List.append_nil] at h
      rcases List.mem_append.mp h with h | h
      · exact absurd (mem_sign_dash h) (by decide)
      · exact (natDigitsBE_char_ne h).2 rfl
    · rw [if_neg hfr] at h ⊢
      rw [getLast?_append_right (List.cons_ne_nil _ _),
        show ('.' :: stripZeros (padTo d (natDigitsBE (n.natAbs % 10 ^ d)))) =
          ['.'] ++ stripZeros (padTo d (natDigitsBE (n.natAbs % 10 ^ d))) from rfl,
        getLast?_append_right hfr]
      exact ⟨stripZeros_getLast_ne_zero _,
        getLast?_ne_of_forall _ fun c hc => (padTo_char_ne (stripZeros_sub _ c hc)).2⟩

/-! ### Claim C1 -/

/-- **C1** (counterexample): the claim requires at least one digit before the
decimal point ("0.5 is rendered \"0.5\", never \".5\""), but
`GCodeFormatter::emit_axis` renders the value `1/2` at two decimal digits as
the token `".5"` with an empty integer part. -/
theorem C1_counterexample_leading_digit : emit_axis (1 / 2) 2 = ['.', '5'] := by
  have h : roundHalfAway ((1 / 2 : ℚ) * 10 ^ 2) = 50 := by
    rw [roundHalfAway, if_pos (by norm_num)]
    norm_num
  rw [emit_axis, h]
  decide

/-- **C1** (amended): for every finite `v` and digit count `d ≤ 9`,
`emit_axis` appends the token `fixedRender (roundHalfAway (v * 10^d)) d`; the
token parses back to exactly `v` rounded half away from zero at `d` decimals,
begins with `'-'` exactly when the rounded value is negative, and — when it
contains a decimal point — ends neither in a superfluous `'0'` nor in the
point itself.  (Amendment: the rounded values `r` with `0 < |r| < 1` are
rendered with an *empty* integer part, e.g. `".5"`/`"-.5"`; a leading `"0"`
appears only when the rounded value is zero.) -/
theorem C1_emit_axis_amended (v : ℚ) (d : ℕ) (hd : d ≤ 9) :
    emit_axis v d = fixedRender (roundHalfAway (v * 10 ^ d)) d ∧
    parseFixed (emit_axis v d) = ((roundHalfAway (v * 10 ^ d) : ℤ) : ℚ) / 10 ^ d ∧
    ((emit_axis v d).head? = some '-' ↔ roundHalfAway (v * 10 ^ d) < 0) ∧
    ('.' ∈ emit_axis v d →
      (emit_axis v d).getLast? ≠ some '0' ∧ (emit_axis v d).getLast? ≠ some '.') := by
  have he : emit_axis v d = fixedRender (roundHalfAway (v * 10 ^ d)) d :=
    emitCore_eq_fixedRender _ d
  refine ⟨he, ?_, ?_, ?_⟩ <;> rw [he]
  · exact parseFixed_fixedRender _ d
  · exact fixedRender_head_dash _ d
  · exact fixedRender_trailing _ d

/-- Witness for `C1_emit_axis_amended` at `v = 3/2`, `d = 2`. -/
theorem C1_emit_axis_amended_witness :
    emit_axis (3 / 2) 2 = fixedRender (roundHalfAway ((3 / 2 : ℚ) * 10 ^ 2)) 2 ∧
    parseFixed (emit_axis (3 / 2) 2) =
      ((roundHalfAway ((3 / 2 : ℚ) * 10 ^ 2) : ℤ) : ℚ) / 10 ^ 2 ∧
    ((emit_axis (3 / 2) 2).head? = some '-' ↔ roundHalfAway ((3 / 2 : ℚ) * 10 ^ 2) < 0) ∧
    ('.' ∈ emit_axis (3 / 2) 2 →
      (emit_axis (3 / 2) 2).getLast? ≠ some '0' ∧
        (emit_axis (3 / 2) 2).getLast? ≠ some '.') :=
  C1_emit_axis_amended (3 / 2) 2 (by norm_num)

/-! ### C++ `ostringstream` default-format rendering at precision 4

`set_pressure_advance` streams `pa` through `std::setprecision(4)` in the
stream's *default* float format, i.e. `%g` with precision 4 (4 significant
digits), not fixed-point.  `renderDefault4` models that rendering for a
rational value. -/

def numDigits (n : ℕ) : ℕ := (natDigitsBE n).length

/-- Round to nearest, ties to even (the C library's default rounding of an
exact value when printing). -/
def roundHalfEven (q : ℚ) : ℤ :=
  if q - ⌊q⌋ < 1 / 2 then ⌊q⌋
  else if 1 / 2 < q - ⌊q⌋ then ⌊q⌋ + 1
  else if ⌊q⌋ % 2 = 0 then ⌊q⌋ else ⌊q⌋ + 1

/-- `⌊log10 q⌋` for a positive rational `q`. -/
def floorLog10 (q : ℚ) : ℤ :=
  if 1 ≤ q then ((numDigits ⌊q⌋.toNat - 1 : ℕ) : ℤ)
  else
    match (List.range (numDigits q.den + 1)).find?
        (fun k => decide (q.den ≤ q.num.toNat * 10 ^ k)) with
    | some k => -(k : ℤ)
    | none => -((numDigits q.den + 1 : ℕ) : ℤ)

/-- `%f`-style rendering of `n / 10^d` (with the trailing-zero stripping that
`%g` performs); unlike the G-code axis formatter this keeps a leading `0`. -/
def fixedPointF (n : ℕ) (d : ℕ) : List Char :=
  natRepr (n / 10 ^ d) ++
    (if stripZeros (padTo d (natDigitsBE (n % 10 ^ d))) = [] then []
     else '.' :: stripZeros (padTo d (natDigitsBE (n % 10 ^ d))))

/-- `%e`-style rendering of the 4-digit mantissa `n` at decimal exponent `e`. -/
def sciForm (n : ℕ) (e : ℤ) : List Char :=
  (natDigitsBE n).take 1 ++
    (if stripZeros ((natDigitsBE n).drop 1) = [] then []
     else '.' :: stripZeros ((natDigitsBE n).drop 1)) ++
    'e' :: (if e < 0 then '-' else '+') :: padTo 2 (natDigitsBE e.natAbs)

/-- `%g` with precision 4 of a rational value. -/
def renderDefault4 (q : ℚ) : List Char :=
  if q = 0 then ['0']
  else
    (if q < 0 then ['-'] else []) ++
    (let e0 := floorLog10 |q|
     let n0 := roundHalfEven (|q| / 10 ^ (e0 - 3))
     let n : ℕ := if n0 = 10000 then 1000 else n0.toNat
     let X : ℤ := if n0 = 10000 then e0 + 1 else e0
     if -4 ≤ X ∧ X < 4 then fixedPointF n (3 - X).toNat
     else sciForm n X)

/-- `%.4f`-style fixed four-decimal rendering (what the claim asserts the
pressure-advance command uses). -/
def fixed4 (q : ℚ) : List Char :=
  (if q < 0 then ['-'] else []) ++
  natRepr ((roundHalfAway (|q| * 10 ^ 4)).toNat / 10 ^ 4) ++
  '.' :: padTo 4 (natDigitsBE ((roundHalfAway (|q| * 10 ^ 4)).toNat % 10 ^ 4))

/-! ### The machine-state writer: data model

Shallow embedding of `GCodeWriter` (GCodeWriter.cpp).  Doubles are rationals;
the emitted text is a list of structured `GLine` records (the spec's
`EmittedLine`); comments are not modelled.  The two geometric quantities that
the C++ code computes with transcendental functions (the lazy-lift slope test
`atan2(dz,|dxy|) < slope_threshold`, and the spiral-lift `I`/`J` offset
`radius * normalized(dxy)`) are modelled as, respectively, an explicit boolean
input `shallow` of `travel_to_xyz` and omitted payload fields: no claim
depends on their numeric values. -/

/-- libslic3r's `EPSILON` (1e-4); the header defining it is outside `src/`. -/
def EPSILON : ℚ := 1 / 10000

/-- `std::numeric_limits<double>::epsilon()` = 2^-52. -/
def dblEps : ℚ := 1 / 2 ^ 52

inductive Flavor
  | reprapSprinter | reprapFirmware | repetier | teacup | makerWare | sailfish
  | mach3 | machinekit | smoothie | marlinLegacy | marlinFirmware | klipper
  deriving DecidableEq, Repr

inductive LiftType
  | NormalLift | SpiralLift | LazyLift
  deriving DecidableEq, Repr

/-- The slice of `PrintConfig`/writer configuration the embedded operations
read.  Per-extruder values are functions of the extruder id
(`config.option.get_at(id)`). -/
structure GConfig where
  flavor : Flavor
  relativeE : Bool              -- use_relative_e_distances
  travelSpeed : ℚ
  travelSpeedZ : ℚ
  zHop : ℕ → ℚ
  useFirmwareRetraction : Bool
  adjustAccelToDecel : Bool
  isBBL : Bool                  -- m_is_bbl_printers
  semm : Bool                   -- single_extruder_multi_material
  retractSpeed : ℕ → ℚ
  deretractSpeed : ℕ → ℚ
  retractionLength : ℕ → ℚ
  retractRestartExtra : ℕ → ℚ
  retractLengthToolchange : ℕ → ℚ
  retractRestartExtraToolchange : ℕ → ℚ
  retractBeforeWipe : ℕ → ℚ

/-- Modelled from the spec: the per-tool `Extruder`/`ExtruderState` record
(`Extruder.hpp` is not under `src/`) — "per-tool accumulated filament position
(absolute E coordinate), retraction length/extra-restart length currently
'owed', and tool id". -/
structure Extr where
  eid : ℕ
  epos : ℚ
  retracted : ℚ
  restartExtra : ℚ
  deriving DecidableEq, Repr, Inhabited

/-- Modelled from the spec: `Extruder::extrude(dE)` advances the accumulated
filament position by `dE`. -/
def Extr.extrude (e : Extr) (dE : ℚ) : Extr :=
  { e with epos := e.epos + dE }

/-- Modelled from the spec: `Extruder::retract` — retract the still-owed part
of the requested length, remembering the extra restart length. -/
def Extr.retractOp (e : Extr) (len extra : ℚ) : Extr × ℚ :=
  let toGo := max 0 (len - e.retracted)
  if 0 < toGo then
    let e1 : Extr :=
      { e with epos := e.epos - toGo, retracted := e.retracted + toGo, restartExtra := extra }
    (e1, toGo)
  else (e, 0)

/-- Modelled from the spec: `Extruder::unretract` — restore the retracted
length plus the extra restart length. -/
def Extr.unretractOp (e : Extr) : Extr × ℚ :=
  let dE := e.retracted + e.restartExtra
  ({ e with epos := e.epos + dE, retracted := 0, restartExtra := 0 }, dE)

/-- One emitted G-code line (the spec's `EmittedLine`), structured. -/
inductive GLine
  | g1 (x y z e f : Option ℚ)
  | g2g3 (ccw : Bool) (x y i j e : Option ℚ)
  | g17
  | spiralLiftZ (ccw : Bool) (z f : ℚ)
  | slopeMove (z f : ℚ)
  | bedTemp (code : String) (s : ℤ)
  | nozzleTemp (code axis : String) (t : ℕ) (tool : Option ℤ)
  | waitTemp
  | paCmd (pre : String) (val : List Char) (suf : String)
  | toolSel (pre : String) (tid : ℕ)
  | resetECmd
  | firmRetract (code : String)
  | extruderToggle (code : String)
  | accelCmd (kind : String) (a : ℚ)
  | jerkCmd (kind : String) (j : ℕ)
  | fanCmd (code : String) (v : Option ℚ)
  | progressCmd (p : ℕ)
  deriving DecidableEq

/-- The mutable state of `GCodeWriter`. -/
structure Writer where
  cfg : GConfig
  posx : ℚ := 0
  posy : ℚ := 0
  posz : ℚ := 0
  lifted : ℚ := 0                 -- m_lifted
  toLift : ℚ := 0                 -- m_to_lift
  toLiftType : LiftType := LiftType.NormalLift
  posClear : Bool := false        -- is_current_position_clear()
  extruders : List Extr := []
  cur : Option ℕ := none          -- m_extruder, as an index into extruders
  multiple : Bool := false        -- multiple_extruders
  lastBedTemp : ℤ := 0
  lastBedReached : Bool := false
  lastAccel : ℕ := 0
  lastJerk : ℕ := 0
  maxAccel : ℕ := 0
  maxJerk : ℕ := 0
  xOff : ℚ := 0
  yOff : ℚ := 0
  currentSpeed : ℚ := 0

/-- The extruder `m_extruder` points at (meaningful only while `cur` indexes
into `extruders`, as in the C++ code a null/dangling `m_extruder` is UB). -/
def Writer.curExtr (w : Writer) : Extr :=
  match w.cur with
  | some i => w.extruders.getD i default
  | none => default

def Writer.curId (w : Writer) : ℕ := w.curExtr.eid

def Writer.setCur (w : Writer) (e : Extr) : Writer :=
  match w.cur with
  | some i => { w with extruders := w.extruders.set i e }
  | none => w

/-! ### Writer operations (GCodeWriter.cpp) -/

/-- `GCodeWriter::set_extruders`: sort the ids, build one `Extruder` per id,
and enable tool-select output iff any id exceeds 0 (`std::sort` is modelled by
insertion sort: any sorted permutation). -/
def mkExtr (i : ℕ) : Extr := { eid := i, epos := 0, retracted := 0, restartExtra := 0 }

def Writer.set_extruders (w : Writer) (ids : List ℕ) : Writer :=
  { w with
    extruders := (ids.insertionSort (· ≤ ·)).map mkExtr
    multiple := 0 < ids.foldr max 0 }

/-- `GCodeWriter::set_bed_temperature` (GCodeWriter.cpp:126-148). -/
def Writer.set_bed_temperature (w : Writer) (t : ℤ) (wait : Bool) : Writer × List GLine :=
  if t = w.lastBedTemp ∧ (¬wait ∨ w.lastBedReached) then (w, [])
  else
    ({ w with lastBedTemp := t, lastBedReached := wait },
     [.bedTemp (if wait then "M190" else "M140") t])

/-- `GCodeWriter::set_temperature` (const). -/
def Writer.set_temperature (w : Writer) (t : ℕ) (wait : Bool) (tool : ℤ) : List GLine :=
  if wait ∧ (w.cfg.flavor = .makerWare ∨ w.cfg.flavor = .sailfish) then []
  else
    let code :=
      if wait ∧ w.cfg.flavor ≠ .teacup ∧ w.cfg.flavor ≠ .reprapFirmware then "M109"
      else if w.cfg.flavor = .reprapFirmware then "G10" else "M104"
    let axis := if w.cfg.flavor = .mach3 ∨ w.cfg.flavor = .machinekit then "P" else "S"
    let multipleTools := w.multiple ∧ ¬w.cfg.semm
    let toolArg :=
      if tool ≠ -1 ∧ (multipleTools ∨ w.cfg.flavor = .makerWare ∨ w.cfg.flavor = .sailfish)
      then some tool else none
    .nozzleTemp code axis t toolArg ::
      (if (w.cfg.flavor = .teacup ∨ w.cfg.flavor = .reprapFirmware) ∧ wait
       then [.waitTemp] else [])

/-- `GCodeWriter::set_acceleration`. -/
def Writer.set_acceleration (w : Writer) (accel0 : ℕ) : Writer × List GLine :=
  let accel := if 0 < w.maxAccel ∧ w.maxAccel < accel0 then w.maxAccel else accel0
  if accel = 0 ∨ accel = w.lastAccel then (w, [])
  else
    let w1 := { w with lastAccel := accel }
    if w.cfg.flavor = .repetier then
      (w1, [.accelCmd "M201" accel, .accelCmd "M202" accel])
    else if w.cfg.flavor = .reprapFirmware ∨ w.cfg.flavor = .marlinFirmware then
      (w1, [.accelCmd "M204 P" accel])
    else if w.cfg.flavor = .klipper ∧ w.cfg.adjustAccelToDecel then
      (w1, [.accelCmd "SET_VELOCITY_LIMIT ACCEL_TO_DECEL=" ((accel : ℚ) * (1 / 2)),
            .accelCmd "M204 S" accel])
    else (w1, [.accelCmd "M204 S" accel])

/-- `GCodeWriter::set_jerk_xy`. -/
def Writer.set_jerk_xy (w : Writer) (j0 : ℕ) : Writer × List GLine :=
  let j := if 0 < w.maxJerk ∧ w.maxJerk < j0 then w.maxJerk else j0
  if j < 1 ∨ j = w.lastJerk then (w, [])
  else
    ({ w with lastJerk := j },
     [if w.cfg.flavor = .klipper then .jerkCmd "SET_VELOCITY_LIMIT SQUARE_CORNER_VELOCITY=" j
      else .jerkCmd "M205" j])

/-- `GCodeWriter::set_pressure_advance` (GCodeWriter.cpp:217-235): empty for
negative `pa`; otherwise one dialect-selected command whose value is streamed
at `std::setprecision(4)` in the default float format. -/
def Writer.set_pressure_advance (w : Writer) (pa : ℚ) : List GLine :=
  if pa < 0 then []
  else if w.cfg.isBBL then
    [.paCmd "M900 K" (renderDefault4 pa) " L1000 M10"]
  else if w.cfg.flavor = .klipper then
    [.paCmd "SET_PRESSURE_ADVANCE ADVANCE=" (renderDefault4 pa) ""]
  else if w.cfg.flavor = .reprapFirmware then
    [.paCmd "M572 D0 S" (renderDefault4 pa) ""]
  else
    [.paCmd "M900 K" (renderDefault4 pa) ""]

/-- `GCodeWriter::reset_e(force)`. -/
def Writer.reset_e (w : Writer) (force : Bool) : Writer × List GLine :=
  if w.cfg.flavor = .mach3 ∨ w.cfg.flavor = .makerWare ∨ w.cfg.flavor = .sailfish then
    (w, [])
  else
    match w.cur with
    | some i =>
      if (w.extruders.getD i default).epos = 0 ∧ ¬force then (w, [])
      else if ¬w.cfg.relativeE then
        ({ w with extruders :=
            w.extruders.set i { w.extruders.getD i default with epos := 0 } },
         [.resetECmd])
      else
        ({ w with extruders :=
            w.extruders.set i { w.extruders.getD i default with epos := 0 } }, [])
    | none => if ¬w.cfg.relativeE then (w, [.resetECmd]) else (w, [])

/-- `GCodeWriter::toolchange_prefix`. -/
def Writer.toolchangeCmdPre (w : Writer) : String :=
  if w.cfg.flavor = .makerWare then "M135 T"
  else if w.cfg.flavor = .sailfish then "M108 T" else "T"

/-- `GCodeWriter::toolchange` (GCodeWriter.cpp:286-305): `lower_bound` over the
sorted extruder list, then `assert(it != end && it->id == extruder_id)`; the
failed assertion is modelled as `none`. `selTool` is the internal
`m_extruder = const_cast<Extruder*>(&*it)` selection step. -/
def Writer.selTool (w : Writer) (i : ℕ) : Writer :=
  { w with cur := some i }

def Writer.toolchange (w : Writer) (tid : ℕ) : Option (Writer × List GLine) :=
  if (w.extruders.findIdx fun e => decide (tid ≤ e.eid)) < w.extruders.length ∧
      (w.extruders.getD (w.extruders.findIdx fun e => decide (tid ≤ e.eid)) default).eid = tid then
    if (w.selTool (w.extruders.findIdx fun e => decide (tid ≤ e.eid))).multiple then
      some (((w.selTool (w.extruders.findIdx fun e => decide (tid ≤ e.eid))).reset_e true).1,
        .toolSel w.toolchangeCmdPre tid ::
          ((w.selTool (w.extruders.findIdx fun e => decide (tid ≤ e.eid))).reset_e true).2)
    else some (w.selTool (w.extruders.findIdx fun e => decide (tid ≤ e.eid)), [])
  else none

/-- `GCodeWriter::set_speed`. -/
def Writer.set_speed (w : Writer) (f : ℚ) : Writer × List GLine :=
  ({ w with currentSpeed := f }, [.g1 none none none none (some f)])

/-- `GCodeWriter::travel_to_xy`. -/
def Writer.travel_to_xy (w : Writer) (px py : ℚ) : Writer × List GLine :=
  ({ w with posx := px, posy := py, posClear := true },
   [.g1 (some (px - w.xOff)) (some (py - w.yOff)) none none
     (some (w.cfg.travelSpeed * 60))])

/-- `GCodeWriter::_travel_to_z`. -/
def Writer.travelZRaw (w : Writer) (z : ℚ) : Writer × List GLine :=
  let speed := if w.cfg.travelSpeedZ = 0 then w.cfg.travelSpeed else w.cfg.travelSpeedZ
  ({ w with posz := z }, [.g1 none none (some z) none (some (speed * 60))])

/-- `GCodeWriter::_spiral_travel_to_z` (the `I`/`J` arc offset is computed
from `radius * normalized(dxy)` in ℝ and is not carried in the model). -/
def Writer.spiraltravelZRaw (w : Writer) (z : ℚ) : Writer × List GLine :=
  let speed := if w.cfg.travelSpeedZ = 0 then w.cfg.travelSpeed else w.cfg.travelSpeedZ
  ({ w with posz := z }, [.g17, .spiralLiftZ true z (speed * 60)])

/-- `GCodeWriter::will_move_z` (GCodeWriter.cpp:489-504). -/
def Writer.will_move_z (w : Writer) (z : ℚ) : Bool :=
  if 0 < w.lifted then
    if w.posz - w.lifted ≤ z ∧ z ≤ w.posz then false else true
  else if |w.posz - z| < EPSILON then false
  else true

/-- `GCodeWriter::travel_to_z` (GCodeWriter.cpp:436-453). -/
def Writer.travel_to_z (w : Writer) (z : ℚ) : Writer × List GLine :=
  if ¬w.will_move_z z then
    let lifted1 := w.lifted - (z - (w.posz - w.lifted))
    ({ w with lifted := if |lifted1| < EPSILON then 0 else lifted1 }, [])
  else
    Writer.travelZRaw { w with lifted := 0 } z

/-- `GCodeWriter::unlift` (GCodeWriter.cpp:672-681). -/
def Writer.unlift (w : Writer) : Writer × List GLine :=
  if 0 < w.lifted then
    let r := w.travelZRaw (w.posz - w.lifted)
    ({ r.1 with lifted := 0, toLift := 0 }, r.2)
  else ({ w with toLift := 0 }, [])

/-- `GCodeWriter::lift` (GCodeWriter.cpp:651-670); `target_lift` is
`config.z_hop.get_at(m_extruder->id())`. -/
def Writer.lift (w : Writer) (lt : LiftType) : Writer × List GLine :=
  if w.lifted = 0 ∧ w.toLift = 0 ∧ 0 < w.cfg.zHop w.curId then
    if lt = LiftType.LazyLift ∨ lt = LiftType.SpiralLift then
      ({ w with toLift := w.cfg.zHop w.curId, toLiftType := lt }, [])
    else
      Writer.travelZRaw { w with lifted := w.cfg.zHop w.curId }
        (w.posz + w.cfg.zHop w.curId)
  else (w, [])

/-- `GCodeWriter::travel_to_xyz` (GCodeWriter.cpp:338-434).  `shallow` stands
for the transcendental climb-angle test
`atan2(delta.z, |delta.xy|) < slope_threshold` of the lazy-lift branch. -/
def Writer.travel_to_xyz (w : Writer) (px py pz : ℚ) (shallow : Bool) :
    Writer × List GLine :=
  if EPSILON < |w.toLift| then
    let cond := (¬w.posClear ∨ ¬(w.posx = px ∧ w.posy = py ∧ w.posz = pz)) ∧
      pz < w.toLift + w.posz
    let lifted1 := if cond then w.toLift + w.posz - pz else w.lifted
    let destz := if cond then w.toLift + w.posz else pz
    let dz := destz - w.posz
    let dxyZero := px - w.posx = 0 ∧ py - w.posy = 0
    let slop : List GLine :=
      if w.posClear ∧ 0 < dz ∧ ¬dxyZero then
        if w.toLiftType = LiftType.SpiralLift then
          (Writer.spiraltravelZRaw w destz).2
        else if shallow then
          [.slopeMove destz (w.cfg.travelSpeed * 60)]
        else []
      else []
    let w0 : Writer := { w with lifted := lifted1, toLift := 0, posClear := true }
    let w1 : Writer := { w0 with posx := px, posy := py, posz := destz }
    (w1, slop ++ [.g1 (some (px - w.xOff)) (some (py - w.yOff)) (some destz) none
      (some (w.cfg.travelSpeed * 60))])
  else if ¬w.will_move_z pz then
    let lifted1 := w.lifted - (pz - (w.posz - w.lifted))
    let w1 : Writer :=
      { w with lifted := if |lifted1| < EPSILON then 0 else lifted1, posClear := true }
    w1.travel_to_xy px py
  else
    let w0 : Writer := { w with lifted := 0, posClear := true }
    let w1 : Writer := { w0 with posx := px, posy := py, posz := pz }
    (w1, [.g1 (some (px - w.xOff)) (some (py - w.yOff)) (some pz) none
      (some (w.cfg.travelSpeed * 60))])

/-- `GCodeWriter::extrude_to_xy` (GCodeWriter.cpp:506-526): the filament-delta
accounting is skipped when the caller's flag is set *or* `|dE|` is at most
`std::numeric_limits<double>::epsilon()`; the emitted `E` value is
`m_extruder->E()` after the delta. -/
def Writer.extrude_to_xy (w : Writer) (px py dE : ℚ) (forceNoExtrusion : Bool) :
    Writer × List GLine :=
  if |dE| ≤ dblEps ∨ forceNoExtrusion then
    ({ w with posx := px, posy := py },
     [.g1 (some (px - w.xOff)) (some (py - w.yOff)) none none none])
  else
    (({ w with posx := px, posy := py } : Writer).setCur (w.curExtr.extrude dE),
     [.g1 (some (px - w.xOff)) (some (py - w.yOff)) none
       (some (w.curExtr.epos + dE)) none])

/-- `GCodeWriter::extrude_arc_to_xy` (GCodeWriter.cpp:531-548): no
floating-point-epsilon guard here, only the caller's flag. -/
def Writer.extrude_arc_to_xy (w : Writer) (px py ci cj dE : ℚ) (isCcw : Bool)
    (forceNoExtrusion : Bool) : Writer × List GLine :=
  if forceNoExtrusion then
    ({ w with posx := px, posy := py },
     [.g2g3 isCcw (some (px - w.xOff)) (some (py - w.yOff)) (some ci) (some cj) none])
  else
    (({ w with posx := px, posy := py } : Writer).setCur (w.curExtr.extrude dE),
     [.g2g3 isCcw (some (px - w.xOff)) (some (py - w.yOff)) (some ci) (some cj)
       (some (w.curExtr.epos + dE))])

/-- `GCodeWriter::extrude_to_xyz` (GCodeWriter.cpp:550-567): unconditionally
clears the applied lift; no epsilon guard. -/
def Writer.extrude_to_xyz (w : Writer) (px py pz dE : ℚ) (forceNoExtrusion : Bool) :
    Writer × List GLine :=
  if forceNoExtrusion then
    ({ w with posx := px, posy := py, posz := pz, lifted := 0 },
     [.g1 (some (px - w.xOff)) (some (py - w.yOff)) (some pz) none none])
  else
    (({ w with posx := px, posy := py, posz := pz, lifted := 0 } : Writer).setCur
       (w.curExtr.extrude dE),
     [.g1 (some (px - w.xOff)) (some (py - w.yOff)) (some pz)
       (some (w.curExtr.epos + dE)) none])

/-- `GCodeWriter::_retract`. -/
def Writer.retractRaw (w : Writer) (length restartExtra : ℚ) : Writer × List GLine :=
  let len := if w.cfg.useFirmwareRetraction then 1 else length
  let r := w.curExtr.retractOp len restartExtra
  let w1 := w.setCur r.1
  let core : List GLine :=
    if r.2 ≠ 0 then
      if w.cfg.useFirmwareRetraction then
        [.firmRetract (if w.cfg.flavor = .machinekit then "G22" else "G10")]
      else
        [.g1 none none none (some r.1.epos) (some (w.cfg.retractSpeed w.curId * 60))]
    else []
  (w1, core ++ (if w.cfg.flavor = .makerWare then [.extruderToggle "M103"] else []))

/-- `GCodeWriter::retract`. -/
def Writer.retract (w : Writer) (beforeWipe : Bool) : Writer × List GLine :=
  let factor := if beforeWipe then w.cfg.retractBeforeWipe w.curId else 1
  w.retractRaw (factor * w.cfg.retractionLength w.curId)
    (factor * w.cfg.retractRestartExtra w.curId)

/-- `GCodeWriter::retract_for_toolchange`. -/
def Writer.retract_for_toolchange (w : Writer) (beforeWipe : Bool) : Writer × List GLine :=
  let factor := if beforeWipe then w.cfg.retractBeforeWipe w.curId else 1
  w.retractRaw (factor * w.cfg.retractLengthToolchange w.curId)
    (factor * w.cfg.retractRestartExtraToolchange w.curId)

/-- `GCodeWriter::unretract`. -/
def Writer.unretract (w : Writer) : Writer × List GLine :=
  let pre : List GLine := if w.cfg.flavor = .makerWare then [.extruderToggle "M101"] else []
  let r := w.curExtr.unretractOp
  let w1 := w.setCur r.1
  if r.2 ≠ 0 then
    if w.cfg.useFirmwareRetraction then
      let rr := w1.reset_e false
      (rr.1, pre ++ [.firmRetract (if w.cfg.flavor = .machinekit then "G23" else "G11")] ++ rr.2)
    else
      (w1, pre ++ [.g1 none none none (some r.1.epos)
        (some (w.cfg.deretractSpeed w.curId * 60))])
  else (w1, pre)

/-- `GCodeWriter::set_fan` (static). -/
def set_fan (flavor : Flavor) (speed : ℕ) : List GLine :=
  if speed = 0 then
    [.fanCmd (if flavor = .makerWare ∨ flavor = .sailfish then "M127" else "M106 S0") none]
  else if flavor = .makerWare ∨ flavor = .sailfish then [.fanCmd "M126" none]
  else if flavor = .mach3 ∨ flavor = .machinekit then
    [.fanCmd "M106 P" (some (255 * (speed : ℚ) / 100))]
  else [.fanCmd "M106 S" (some (255 * (speed : ℚ) / 100))]

/-- `GCodeWriter::update_progress`. -/
def Writer.update_progress (w : Writer) (num tot : ℕ) (allow100 : Bool) : List GLine :=
  if w.cfg.flavor ≠ .makerWare ∧ w.cfg.flavor ≠ .sailfish then []
  else
    let percent := (⌊(100 * (num : ℚ)) / (tot : ℚ) + 1 / 2⌋).toNat
    [.progressCmd (if allow100 then percent else min percent 99)]

/-! ### The writer operations as one step relation -/

/-- One public `GCodeWriter` operation together with its arguments
(`travel_to_xyz` additionally carries the boolean outcome of the
transcendental slope test). -/
inductive WOp
  | travelXY (px py : ℚ)
  | travelXYZ (px py pz : ℚ) (shallow : Bool)
  | travelZ (z : ℚ)
  | extrudeXY (px py dE : ℚ) (force : Bool)
  | extrudeArcXY (px py ci cj dE : ℚ) (ccw force : Bool)
  | extrudeXYZ (px py pz dE : ℚ) (force : Bool)
  | doLift (lt : LiftType)
  | doUnlift
  | doRetract (beforeWipe : Bool)
  | doRetractForToolchange (beforeWipe : Bool)
  | doUnretract
  | doToolchange (tid : ℕ)
  | doResetE (force : Bool)
  | doSetExtruders (ids : List ℕ)
  | setBedTemp (t : ℤ) (wait : Bool)
  | setNozzleTemp (t : ℕ) (wait : Bool) (tool : ℤ)
  | setAccel (a : ℕ)
  | setJerk (j : ℕ)
  | setSpeed (f : ℚ)
  | setPA (pa : ℚ)
  | setFanSpeed (s : ℕ)
  | progress (num tot : ℕ) (allow100 : Bool)

/-- Apply one writer operation; `none` models a failed assertion
(`toolchange` to an unconfigured id). -/
def Writer.step (w : Writer) : WOp → Option (Writer × List GLine)
  | .travelXY px py => some (w.travel_to_xy px py)
  | .travelXYZ px py pz sh => some (w.travel_to_xyz px py pz sh)
  | .travelZ z => some (w.travel_to_z z)
  | .extrudeXY px py dE f => some (w.extrude_to_xy px py dE f)
  | .extrudeArcXY px py ci cj dE ccw f => some (w.extrude_arc_to_xy px py ci cj dE ccw f)
  | .extrudeXYZ px py pz dE f => some (w.extrude_to_xyz px py pz dE f)
  | .doLift lt => some (w.lift lt)
  | .doUnlift => some w.unlift
  | .doRetract bw => some (w.retract bw)
  | .doRetractForToolchange bw => some (w.retract_for_toolchange bw)
  | .doUnretract => some w.unretract
  | .doToolchange tid => w.toolchange tid
  | .doResetE f => some (w.reset_e f)
  | .doSetExtruders ids => some (w.set_extruders ids, [])
  | .setBedTemp t wait => some (w.set_bed_temperature t wait)
  | .setNozzleTemp t wait tool => some (w, w.set_temperature t wait tool)
  | .setAccel a => some (w.set_acceleration a)
  | .setJerk j => some (w.set_jerk_xy j)
  | .setSpeed f => some (w.set_speed f)
  | .setPA pa => some (w, w.set_pressure_advance pa)
  | .setFanSpeed s => some (w, set_fan w.cfg.flavor s)
  | .progress num tot a => some (w, w.update_progress num tot a)

/-- The claimed lift invariant: at most one of the applied lift
(`m_lifted > 0`) and the pending lift request (`m_to_lift ≠ 0`) is
non-trivial. -/
def WInv (w : Writer) : Prop := ¬(0 < w.lifted ∧ w.toLift ≠ 0)

/-- Unpack `will_move_z = false` into the two source conditions. -/
theorem will_move_z_false {w : Writer} {z : ℚ} (h : ¬w.will_move_z z) :
    (0 < w.lifted ∧ w.posz - w.lifted ≤ z ∧ z ≤ w.posz) ∨
    (¬0 < w.lifted ∧ |w.posz - z| < EPSILON) := by
  unfold Writer.will_move_z at h
  by_cases h1 : 0 < w.lifted
  · rw [if_pos h1] at h
    refine Or.inl ⟨h1, ?_⟩
    by_cases h2 : w.posz - w.lifted ≤ z ∧ z ≤ w.posz
    · exact h2
    · rw [if_neg h2] at h
      simp at h
  · rw [if_neg h1] at h
    refine Or.inr ⟨h1, ?_⟩
    by_cases h2 : |w.posz - z| < EPSILON
    · exact h2
    · rw [if_neg h2] at h
      simp at h

theorem WInv_of_eq {w w' : Writer} (hl : w'.lifted = w.lifted)
    (ht : w'.toLift = w.toLift) (hw : WInv w) : WInv w' := by
  intro hcon
  exact hw ⟨hl ▸ hcon.1, ht ▸ hcon.2⟩

theorem setCur_lifted (w : Writer) (e : Extr) :
    (w.setCur e).lifted = w.lifted ∧ (w.setCur e).toLift = w.toLift := by
  unfold Writer.setCur
  split <;> exact ⟨rfl, rfl⟩

theorem reset_e_lift (w : Writer) (f : Bool) :
    (w.reset_e f).1.lifted = w.lifted ∧ (w.reset_e f).1.toLift = w.toLift := by
  unfold Writer.reset_e
  repeat' split
  all_goals exact ⟨rfl, rfl⟩

theorem travel_to_z_WInv (w : Writer) (z : ℚ) (hw : WInv w) :
    WInv (w.travel_to_z z).1 := by
  unfold Writer.travel_to_z
  split
  case isTrue hmove =>
    rcases will_move_z_false hmove with ⟨hl, -, -⟩ | ⟨-, habs⟩
    · have ht : w.toLift = 0 := by
        by_contra ht
        exact hw ⟨hl, ht⟩
      intro hcon
      exact hcon.2 ht
    · have hfix : w.lifted - (z - (w.posz - w.lifted)) = w.posz - z := by ring
      intro hcon
      have hpos : 0 < if |w.lifted - (z - (w.posz - w.lifted))| < EPSILON then 0
          else w.lifted - (z - (w.posz - w.lifted)) := hcon.1
      rw [hfix, if_pos habs] at hpos
      exact absurd hpos (lt_irrefl 0)
  case isFalse hmove =>
    intro hcon
    have h1 : (0 : ℚ) < 0 := hcon.1
    exact absurd h1 (lt_irrefl 0)

theorem travel_to_xyz_WInv (w : Writer) (px py pz : ℚ) (sh : Bool) (hw : WInv w) :
    WInv (w.travel_to_xyz px py pz sh).1 := by
  unfold Writer.travel_to_xyz
  split
  case isTrue h =>
    intro hcon
    exact hcon.2 rfl
  case isFalse h =>
    split
    case isTrue hmove =>
      rcases will_move_z_false hmove with ⟨hl, -, -⟩ | ⟨-, habs⟩
      · have ht : w.toLift = 0 := by
          by_contra ht
          exact hw ⟨hl, ht⟩
        intro hcon
        exact hcon.2 ht
      · have hfix : w.lifted - (pz - (w.posz - w.lifted)) = w.posz - pz := by ring
        intro hcon
        have hpos : 0 < if |w.lifted - (pz - (w.posz - w.lifted))| < EPSILON then 0
            else w.lifted - (pz - (w.posz - w.lifted)) := hcon.1
        rw [hfix, if_pos habs] at hpos
        exact absurd hpos (lt_irrefl 0)
    case isFalse hmove =>
      intro hcon
      have h1 : (0 : ℚ) < 0 := hcon.1
      exact absurd h1 (lt_irrefl 0)

theorem lift_WInv (w : Writer) (lt : LiftType) (hw : WInv w) :
    WInv (w.lift lt).1 := by
  unfold Writer.lift
  split
  case isTrue hcond =>
    split
    · intro hcon
      have h1 : 0 < w.lifted := hcon.1
      rw [hcond.1] at h1
      exact absurd h1 (lt_irrefl 0)
    · intro hcon
      exact hcon.2 hcond.2.1
  case isFalse => exact hw

theorem unlift_WInv (w : Writer) (hw : WInv w) : WInv w.unlift.1 := by
  unfold Writer.unlift
  split <;> exact fun hcon => hcon.2 rfl

theorem extrude_to_xyz_WInv (w : Writer) (px py pz dE : ℚ) (f : Bool) :
    WInv (w.extrude_to_xyz px py pz dE f).1 := by
  unfold Writer.extrude_to_xyz
  intro hcon
  have h1 := hcon.1
  split at h1
  · exact absurd h1 (lt_irrefl 0)
  · rw [(setCur_lifted _ _).1] at h1
    exact absurd h1 (lt_irrefl 0)

/-- **C3**: (i) every writer operation preserves the invariant that at most
one of the applied lift (`m_lifted > 0`) and the pending lift request
(`m_to_lift ≠ 0`) is non-trivial; (ii) `lift(type)` is a no-op — empty output
and unchanged state — whenever a lift is already applied or pending; (iii)
`unlift()` always clears the pending lift request, and emits the reverse Z
travel exactly when a lift is applied. -/
theorem C3_lift_state_machine :
    (∀ (w : Writer) (op : WOp) (w' : Writer) (out : List GLine),
        WInv w → w.step op = some (w', out) → WInv w') ∧
    (∀ (w : Writer) (lt : LiftType),
        0 < w.lifted ∨ w.toLift ≠ 0 → w.lift lt = (w, [])) ∧
    (∀ w : Writer, w.unlift.1.toLift = 0 ∧
      w.unlift.2 = (if 0 < w.lifted then
        [.g1 none none (some (w.posz - w.lifted)) none
          (some ((if w.cfg.travelSpeedZ = 0 then w.cfg.travelSpeed
                  else w.cfg.travelSpeedZ) * 60))]
        else [])) := by
  refine ⟨?_, ?_, ?_⟩
  · intro w op w' out hw hstep
    cases op with
    | travelXY px py =>
      simp only [Writer.step, Option.some.injEq] at hstep
      have hfst := congrArg Prod.fst hstep
      subst hfst
      exact WInv_of_eq rfl rfl hw
    | travelXYZ px py pz sh =>
      simp only [Writer.step, Option.some.injEq] at hstep
      have hfst := congrArg Prod.fst hstep
      subst hfst
      exact travel_to_xyz_WInv w px py pz sh hw
    | travelZ z =>
      simp only [Writer.step, Option.some.injEq] at hstep
      have hfst := congrArg Prod.fst hstep
      subst hfst
      exact travel_to_z_WInv w z hw
    | extrudeXY px py dE f =>
      simp only [Writer.step, Option.some.injEq] at hstep
      have hfst := congrArg Prod.fst hstep
      subst hfst
      unfold Writer.extrude_to_xy
      split
      · exact WInv_of_eq rfl rfl hw
      · exact WInv_of_eq (setCur_lifted _ _).1 (setCur_lifted _ _).2 hw
    | extrudeArcXY px py ci cj dE ccw f =>
      simp only [Writer.step, Option.some.injEq] at hstep
      have hfst := congrArg Prod.fst hstep
      subst hfst
      unfold Writer.extrude_arc_to_xy
      split
      · exact WInv_of_eq rfl rfl hw
      · exact WInv_of_eq (setCur_lifted _ _).1 (setCur_lifted _ _).2 hw
    | extrudeXYZ px py pz dE f =>
      simp only [Writer.step, Option.some.injEq] at hstep
      have hfst := congrArg Prod.fst hstep
      subst hfst
      exact extrude_to_xyz_WInv w px py pz dE f
    | doLift lt =>
      simp only [Writer.step, Option.some.injEq] at hstep
      have hfst := congrArg Prod.fst hstep
      subst hfst
      exact lift_WInv w lt hw
    | doUnlift =>
      simp only [Writer.step, Option.some.injEq] at hstep
      have hfst := congrArg Prod.fst hstep
      subst hfst
      exact unlift_WInv w hw
    | doRetract bw =>
      simp only [Writer.step, Option.some.injEq] at hstep
      have hfst := congrArg Prod.fst hstep
      subst hfst
      unfold Writer.retract Writer.retractRaw
      exact WInv_of_eq (setCur_lifted _ _).1 (setCur_lifted _ _).2 hw
    | doRetractForToolchange bw =>
      simp only [Writer.step, Option.some.injEq] at hstep
      have hfst := congrArg Prod.fst hstep
      subst hfst
      unfold Writer.retract_for_toolchange Writer.retractRaw
      exact WInv_of_eq (setCur_lifted _ _).1 (setCur_lifted _ _).2 hw
    | doUnretract =>
      simp only [Writer.step, Option.some.injEq] at hstep
      have hfst := congrArg Prod.fst hstep
      subst hfst
      simp only [Writer.unretract]
      split
      · split
        · exact WInv_of_eq
            ((reset_e_lift _ _).1.trans (setCur_lifted _ _).1)
            ((reset_e_lift _ _).2.trans (setCur_lifted _ _).2) hw
        · exact WInv_of_eq (setCur_lifted _ _).1 (setCur_lifted _ _).2 hw
      · exact WInv_of_eq (setCur_lifted _ _).1 (setCur_lifted _ _).2 hw
    | doToolchange tid =>
      simp only [Writer.step, Writer.toolchange] at hstep
      split at hstep
      · split at hstep
        · rw [Option.some.injEq] at hstep
          have hfst := congrArg Prod.fst hstep
          subst hfst
          exact WInv_of_eq ((reset_e_lift _ _).1.trans rfl)
            ((reset_e_lift _ _).2.trans rfl) hw
        · rw [Option.some.injEq] at hstep
          have hfst := congrArg Prod.fst hstep
          subst hfst
          exact WInv_of_eq rfl rfl hw
      · exact absurd hstep (by simp)
    | doResetE f =>
      simp only [Writer.step, Option.some.injEq] at hstep
      have hfst := congrArg Prod.fst hstep
      subst hfst
      exact WInv_of_eq (reset_e_lift _ _).1 (reset_e_lift _ _).2 hw
    | doSetExtruders ids =>
      simp only [Writer.step, Option.some.injEq] at hstep
      have hfst := congrArg Prod.fst hstep
      subst hfst
      exact WInv_of_eq rfl rfl hw
    | setBedTemp t wait =>
      simp only [Writer.step, Option.some.injEq] at hstep
      have hfst := congrArg Prod.fst hstep
      subst hfst
      unfold Writer.set_bed_temperature
      refine WInv_of_eq ?_ ?_ hw <;> dsimp only <;> split <;> rfl
    | setNozzleTemp t wait tool =>
      simp only [Writer.step, Option.some.injEq] at hstep
      have hfst := congrArg Prod.fst hstep
      subst hfst
      exact hw
    | setAccel a =>
      simp only [Writer.step, Option.some.injEq] at hstep
      have hfst := congrArg Prod.fst hstep
      subst hfst
      unfold Writer.set_acceleration
      refine WInv_of_eq ?_ ?_ hw <;> dsimp only <;> repeat' split
      all_goals rfl
    | setJerk j =>
      simp only [Writer.step, Option.some.injEq] at hstep
      have hfst := congrArg Prod.fst hstep
      subst hfst
      unfold Writer.set_jerk_xy
      refine WInv_of_eq ?_ ?_ hw <;> dsimp only <;> repeat' split
      all_goals rfl
    | setSpeed f =>
      simp only [Writer.step, Option.some.injEq] at hstep
      have hfst := congrArg Prod.fst hstep
      subst hfst
      exact WInv_of_eq rfl rfl hw
    | setPA pa =>
      simp only [Writer.step, Option.some.injEq] at hstep
      have hfst := congrArg Prod.fst hstep
      subst hfst
      exact hw
    | setFanSpeed s =>
      simp only [Writer.step, Option.some.injEq] at hstep
      have hfst := congrArg Prod.fst hstep
      subst hfst
      exact hw
    | progress num tot a =>
      simp only [Writer.step, Option.some.injEq] at hstep
      have hfst := congrArg Prod.fst hstep
      subst hfst
      exact hw
  · intro w lt h
    unfold Writer.lift
    rw [if_neg]
    rintro ⟨h1, h2, -⟩
    rcases h with h | h
    · rw [h1] at h
      exact absurd h (lt_irrefl 0)
    · exact h h2
  · intro w
    unfold Writer.unlift Writer.travelZRaw
    split
    case isTrue h => exact ⟨rfl, rfl⟩
    case isFalse h => exact ⟨rfl, rfl⟩

/-! ### Concrete states for witnesses and counterexamples -/

def cfg0 : GConfig :=
  { flavor := .marlinLegacy
    relativeE := false
    travelSpeed := 100
    travelSpeedZ := 0
    zHop := fun _ => 2 / 5
    useFirmwareRetraction := false
    adjustAccelToDecel := false
    isBBL := false
    semm := false
    retractSpeed := fun _ => 30
    deretractSpeed := fun _ => 30
    retractionLength := fun _ => 1
    retractRestartExtra := fun _ => 0
    retractLengthToolchange := fun _ => 2
    retractRestartExtraToolchange := fun _ => 0
    retractBeforeWipe := fun _ => 1 }

def wBase : Writer := { cfg := cfg0 }

def wLifted : Writer := { wBase with lifted := 1 }

def wZ : Writer := { wBase with posz := 10, lifted := 1 }

/-- Witness for `C3_lift_state_machine` at concrete states. -/
theorem C3_lift_state_machine_witness :
    WInv (wBase.travel_to_z 5).1 ∧
    wLifted.lift LiftType.NormalLift = (wLifted, []) ∧
    (wBase.unlift.1.toLift = 0 ∧
      wBase.unlift.2 = (if 0 < wBase.lifted then
        [.g1 none none (some (wBase.posz - wBase.lifted)) none
          (some ((if wBase.cfg.travelSpeedZ = 0 then wBase.cfg.travelSpeed
                  else wBase.cfg.travelSpeedZ) * 60))]
        else [])) := by
  refine ⟨?_, ?_, C3_lift_state_machine.2.2 wBase⟩
  · exact C3_lift_state_machine.1 wBase (WOp.travelZ 5) (wBase.travel_to_z 5).1
      (wBase.travel_to_z 5).2 (fun h => absurd h.1 (lt_irrefl 0)) rfl
  · exact C3_lift_state_machine.2.1 wLifted LiftType.NormalLift (Or.inl (by norm_num [wLifted]))

/-! ### Claim C2 -/

/-- **C2**: with an applied lift, `travel_to_z` to a `z` strictly between the
nominal Z and the current Z emits nothing, leaves the tracked position
unchanged, and lowers the stored lifted amount to `current Z - z` (snapped to
zero below `EPSILON`), strictly below its old value; a subsequent `unlift()`
travels down by exactly the adjusted amount (and emits nothing at all if the
amount snapped to zero). -/
theorem C2_travel_to_z_lift_suppression (w : Writer) (z : ℚ)
    (hl : 0 < w.lifted) (h1 : w.posz - w.lifted < z) (h2 : z < w.posz) :
    (w.travel_to_z z).2 = [] ∧
    (w.travel_to_z z).1.posx = w.posx ∧
    (w.travel_to_z z).1.posy = w.posy ∧
    (w.travel_to_z z).1.posz = w.posz ∧
    (w.travel_to_z z).1.lifted = (if w.posz - z < EPSILON then 0 else w.posz - z) ∧
    (w.travel_to_z z).1.lifted < w.lifted ∧
    ((w.travel_to_z z).1.unlift.2 =
      if 0 < (w.travel_to_z z).1.lifted then
        [.g1 none none (some (w.posz - (w.travel_to_z z).1.lifted)) none
          (some ((if w.cfg.travelSpeedZ = 0 then w.cfg.travelSpeed
                  else w.cfg.travelSpeedZ) * 60))]
      else []) := by
  have hwm : ¬w.will_move_z z := by
    unfold Writer.will_move_z
    rw [if_pos hl, if_pos ⟨le_of_lt h1, le_of_lt h2⟩]
    simp
  have hfix : w.lifted - (z - (w.posz - w.lifted)) = w.posz - z := by ring
  have habs : |w.lifted - (z - (w.posz - w.lifted))| = w.posz - z := by
    rw [hfix]
    exact abs_of_pos (by linarith)
  have hres : w.travel_to_z z =
      ({ w with lifted := if |w.lifted - (z - (w.posz - w.lifted))| < EPSILON then 0
          else w.lifted - (z - (w.posz - w.lifted)) }, []) := by
    unfold Writer.travel_to_z
    rw [if_pos hwm]
  have hlift : (w.travel_to_z z).1.lifted =
      (if w.posz - z < EPSILON then 0 else w.posz - z) := by
    rw [hres]
    show (if |w.lifted - (z - (w.posz - w.lifted))| < EPSILON then (0 : ℚ)
        else w.lifted - (z - (w.posz - w.lifted))) = _
    rw [habs, hfix]
  refine ⟨by rw [hres], by rw [hres], by rw [hres], by rw [hres], hlift, ?_, ?_⟩
  · rw [hlift]
    split
    · exact hl
    · linarith
  · rw [hres]
    unfold Writer.unlift Writer.travelZRaw
    split <;> split <;> rfl

/-- Witness for `C2_travel_to_z_lift_suppression`: current Z 10, lifted 1,
target Z 9.5 (strictly between nominal 9 and current 10). -/
theorem C2_travel_to_z_lift_suppression_witness :
    (wZ.travel_to_z (19 / 2)).2 = [] ∧
    (wZ.travel_to_z (19 / 2)).1.posx = wZ.posx ∧
    (wZ.travel_to_z (19 / 2)).1.posy = wZ.posy ∧
    (wZ.travel_to_z (19 / 2)).1.posz = wZ.posz ∧
    (wZ.travel_to_z (19 / 2)).1.lifted =
      (if wZ.posz - 19 / 2 < EPSILON then 0 else wZ.posz - 19 / 2) ∧
    (wZ.travel_to_z (19 / 2)).1.lifted < wZ.lifted ∧
    ((wZ.travel_to_z (19 / 2)).1.unlift.2 =
      if 0 < (wZ.travel_to_z (19 / 2)).1.lifted then
        [.g1 none none (some (wZ.posz - (wZ.travel_to_z (19 / 2)).1.lifted)) none
          (some ((if wZ.cfg.travelSpeedZ = 0 then wZ.cfg.travelSpeed
                  else wZ.cfg.travelSpeedZ) * 60))]
      else []) :=
  C2_travel_to_z_lift_suppression wZ (19 / 2)
    (by norm_num : (0 : ℚ) < 1)
    (by norm_num : (10 : ℚ) - 1 < 19 / 2)
    (by norm_num : (19 : ℚ) / 2 < 10)

/-! ### Claim C5 -/

/-- **C5**: `set_bed_temperature` is a no-op when the requested temperature
equals the last issued one and the wait flag matches the recorded
wait-semantics; and concretely, requesting 60 without wait twice emits the
command once, and a following wait-request emits it again. -/
theorem C5_bed_temperature_dedup :
    (∀ (w : Writer) (t : ℤ) (wait : Bool),
        t = w.lastBedTemp → wait = w.lastBedReached →
        w.set_bed_temperature t wait = (w, [])) ∧
    (∀ w : Writer, w.lastBedTemp ≠ 60 →
      (w.set_bed_temperature 60 false).2 = [.bedTemp "M140" 60] ∧
      ((w.set_bed_temperature 60 false).1.set_bed_temperature 60 false).2 = [] ∧
      (((w.set_bed_temperature 60 false).1.set_bed_temperature 60 false).1.set_bed_temperature
        60 true).2 = [.bedTemp "M190" 60]) := by
  constructor
  · intro w t wait h1 h2
    unfold Writer.set_bed_temperature
    rw [if_pos]
    refine ⟨h1, ?_⟩
    rcases Bool.eq_false_or_eq_true w.lastBedReached with hb | hb
    · exact Or.inr hb
    · exact Or.inl (by rw [h2, hb]; simp)
  · intro w h60
    have hc1 : ¬((60 : ℤ) = w.lastBedTemp ∧ (¬(false : Bool) ∨ w.lastBedReached)) := by
      rintro ⟨hc, -⟩
      exact h60 hc.symm
    have r1 : w.set_bed_temperature 60 false =
        ({ w with lastBedTemp := 60, lastBedReached := false }, [.bedTemp "M140" 60]) := by
      unfold Writer.set_bed_temperature
      rw [if_neg hc1]
      rfl
    have r2 : ({ w with lastBedTemp := 60, lastBedReached := false } : Writer).set_bed_temperature
        60 false = ({ w with lastBedTemp := 60, lastBedReached := false }, []) := by
      unfold Writer.set_bed_temperature
      rw [if_pos ⟨rfl, Or.inl (by simp)⟩]
    have hc3 : ¬((60 : ℤ) = (60 : ℤ) ∧
        (¬(true : Bool) ∨ ({ w with lastBedTemp := 60, lastBedReached := false } :
          Writer).lastBedReached)) := by
      rintro ⟨-, h | h⟩
      · exact h rfl
      · simp at h
    have r3 : ({ w with lastBedTemp := 60, lastBedReached := false } : Writer).set_bed_temperature
        60 true = ({ w with lastBedTemp := 60, lastBedReached := true }, [.bedTemp "M190" 60]) := by
      unfold Writer.set_bed_temperature
      rw [if_neg hc3]
      rfl
    exact ⟨by rw [r1], by rw [r1, r2], by rw [r1, r2, r3]⟩

/-- Witness for `C5_bed_temperature_dedup` at the base writer state. -/
theorem C5_bed_temperature_dedup_witness :
    wBase.set_bed_temperature 0 false = (wBase, []) ∧
    ((wBase.set_bed_temperature 60 false).2 = [.bedTemp "M140" 60] ∧
      ((wBase.set_bed_temperature 60 false).1.set_bed_temperature 60 false).2 = [] ∧
      (((wBase.set_bed_temperature 60 false).1.set_bed_temperature 60 false).1.set_bed_temperature
        60 true).2 = [.bedTemp "M190" 60]) :=
  ⟨C5_bed_temperature_dedup.1 wBase 0 false rfl rfl,
   C5_bed_temperature_dedup.2 wBase (by decide : (0 : ℤ) ≠ 60)⟩

/-! ### Claim C10 -/

/-- **C10**: `extrude_to_xyz` unconditionally resets the applied lift to zero
as part of the move, emitting only the single motion line itself (no separate
unlift travel), whereas `extrude_to_xy` and `extrude_arc_to_xy` leave the
lifted amount unchanged. -/
theorem C10_extrude_xyz_cancels_lift (w : Writer) (px py pz dE ci cj : ℚ)
    (f ccw : Bool) :
    (w.extrude_to_xyz px py pz dE f).1.lifted = 0 ∧
    (w.extrude_to_xyz px py pz dE f).2 =
      [.g1 (some (px - w.xOff)) (some (py - w.yOff)) (some pz)
        (if f then none else some (w.curExtr.epos + dE)) none] ∧
    (w.extrude_to_xy px py dE f).1.lifted = w.lifted ∧
    (w.extrude_arc_to_xy px py ci cj dE ccw f).1.lifted = w.lifted := by
  refine ⟨?_, ?_, ?_, ?_⟩
  · unfold Writer.extrude_to_xyz
    split
    · rfl
    · exact (setCur_lifted _ _).1.trans rfl
  · unfold Writer.extrude_to_xyz
    split
    case isTrue h => rfl
    case isFalse h => rfl

  · unfold Writer.extrude_to_xy
    split
    · rfl
    · exact (setCur_lifted _ _).1.trans rfl
  · unfold Writer.extrude_arc_to_xy
    split
    · rfl
    · exact (setCur_lifted _ _).1.trans rfl

/-! ### Claim C8 -/

/-- Concrete writer with one extruder selected (id 0, E = 0). -/
def wE : Writer :=
  { wBase with extruders := [⟨0, 0, 0, 0⟩], cur := some 0 }

/-- **C8** (counterexample): the claim says all three extrusion emitters skip
the filament-delta accounting when `|dE|` is below floating-point epsilon,
but `extrude_to_xyz` and `extrude_arc_to_xy` have no such guard: with
`dE = 2^-53` (nonzero, below `dblEps = 2^-52`) and the no-extrusion flag
clear, both advance the extruder's accumulated filament position by `dE`. -/
theorem C8_counterexample_eps_guard :
    |(1 / 2 ^ 53 : ℚ)| < dblEps ∧ (1 / 2 ^ 53 : ℚ) ≠ 0 ∧
    (wE.extrude_to_xyz 1 2 3 (1 / 2 ^ 53) false).1.curExtr.epos = 1 / 2 ^ 53 ∧
    (wE.extrude_arc_to_xy 1 2 0 0 (1 / 2 ^ 53) true false).1.curExtr.epos = 1 / 2 ^ 53 := by
  refine ⟨?_, by norm_num, ?_, ?_⟩
  · rw [abs_of_pos (by norm_num)]
    rw [dblEps]
    norm_num
  · norm_num [wE, wBase, Writer.extrude_to_xyz, Writer.setCur, Writer.curExtr, Extr.extrude]
  · norm_num [wE, wBase, Writer.extrude_arc_to_xy, Writer.setCur, Writer.curExtr, Extr.extrude]

/-- **C8** (amended): `extrude_to_xy` skips the filament-delta accounting
exactly when the caller signals no-extrusion or `|dE|` is at most
floating-point epsilon, while `extrude_to_xyz` and `extrude_arc_to_xy` skip
it exactly when the caller signals no-extrusion (they have no epsilon guard);
when not skipped, the accumulated filament position advances by `dE` and the
emitted motion line carries an `E` field equal to the advanced position. -/
theorem C8_extrusion_accounting (w : Writer) (px py pz ci cj dE : ℚ) (ccw : Bool) :
    (∀ f : Bool, (f = true ∨ |dE| ≤ dblEps) →
      (w.extrude_to_xy px py dE f).1.extruders = w.extruders ∧
      (w.extrude_to_xy px py dE f).2 =
        [.g1 (some (px - w.xOff)) (some (py - w.yOff)) none none none]) ∧
    (dblEps < |dE| →
      (w.extrude_to_xy px py dE false).1 =
        ({ w with posx := px, posy := py } : Writer).setCur (w.curExtr.extrude dE) ∧
      (w.extrude_to_xy px py dE false).2 =
        [.g1 (some (px - w.xOff)) (some (py - w.yOff)) none
          (some (w.curExtr.epos + dE)) none]) ∧
    ((w.extrude_to_xyz px py pz dE true).1.extruders = w.extruders ∧
      (w.extrude_to_xyz px py pz dE false).1 =
        ({ w with posx := px, posy := py, posz := pz, lifted := 0 } : Writer).setCur
          (w.curExtr.extrude dE) ∧
      (w.extrude_to_xyz px py pz dE false).2 =
        [.g1 (some (px - w.xOff)) (some (py - w.yOff)) (some pz)
          (some (w.curExtr.epos + dE)) none]) ∧
    ((w.extrude_arc_to_xy px py ci cj dE ccw true).1.extruders = w.extruders ∧
      (w.extrude_arc_to_xy px py ci cj dE ccw false).1 =
        ({ w with posx := px, posy := py } : Writer).setCur (w.curExtr.extrude dE) ∧
      (w.extrude_arc_to_xy px py ci cj dE ccw false).2 =
        [.g2g3 ccw (some (px - w.xOff)) (some (py - w.yOff)) (some ci) (some cj)
          (some (w.curExtr.epos + dE))]) := by
  refine ⟨?_, ?_, ?_, ?_⟩
  · intro f hf
    unfold Writer.extrude_to_xy
    rw [if_pos]
    · exact ⟨rfl, rfl⟩
    · rcases hf with hf | hf
      · exact Or.inr (by simp [hf])
      · exact Or.inl hf
  · intro hf
    unfold Writer.extrude_to_xy
    rw [if_neg]
    · exact ⟨rfl, rfl⟩
    · rintro (h | h)
      · exact absurd h (not_le.mpr hf)
      · simp at h
  · refine ⟨?_, ?_, ?_⟩
    · unfold Writer.extrude_to_xyz
      rw [if_pos rfl]
    · unfold Writer.extrude_to_xyz
      rw [if_neg (by simp)]
    · unfold Writer.extrude_to_xyz
      rw [if_neg (by simp)]
  · refine ⟨?_, ?_, ?_⟩
    · unfold Writer.extrude_arc_to_xy
      rw [if_pos rfl]
    · unfold Writer.extrude_arc_to_xy
      rw [if_neg (by simp)]
    · unfold Writer.extrude_arc_to_xy
      rw [if_neg (by simp)]

/-- Witness for `C8_extrusion_accounting` at the concrete single-extruder
writer, `dE = 1`. -/
theorem C8_extrusion_accounting_witness :
    (∀ f : Bool, (f = true ∨ |(1 : ℚ)| ≤ dblEps) →
      (wE.extrude_to_xy 4 5 1 f).1.extruders = wE.extruders ∧
      (wE.extrude_to_xy 4 5 1 f).2 =
        [.g1 (some (4 - wE.xOff)) (some (5 - wE.yOff)) none none none]) ∧
    (dblEps < |(1 : ℚ)| →
      (wE.extrude_to_xy 4 5 1 false).1 =
        ({ wE with posx := 4, posy := 5 } : Writer).setCur (wE.curExtr.extrude 1) ∧
      (wE.extrude_to_xy 4 5 1 false).2 =
        [.g1 (some (4 - wE.xOff)) (some (5 - wE.yOff)) none
          (some (wE.curExtr.epos + 1)) none]) ∧
    ((wE.extrude_to_xyz 4 5 6 1 true).1.extruders = wE.extruders ∧
      (wE.extrude_to_xyz 4 5 6 1 false).1 =
        ({ wE with posx := 4, posy := 5, posz := 6, lifted := 0 } : Writer).setCur
          (wE.curExtr.extrude 1) ∧
      (wE.extrude_to_xyz 4 5 6 1 false).2 =
        [.g1 (some (4 - wE.xOff)) (some (5 - wE.yOff)) (some 6)
          (some (wE.curExtr.epos + 1)) none]) ∧
    ((wE.extrude_arc_to_xy 4 5 2 2 1 true true).1.extruders = wE.extruders ∧
      (wE.extrude_arc_to_xy 4 5 2 2 1 true false).1 =
        ({ wE with posx := 4, posy := 5 } : Writer).setCur (wE.curExtr.extrude 1) ∧
      (wE.extrude_arc_to_xy 4 5 2 2 1 true false).2 =
        [.g2g3 true (some (4 - wE.xOff)) (some (5 - wE.yOff)) (some 2) (some 2)
          (some (wE.curExtr.epos + 1))]) :=
  C8_extrusion_accounting wE 4 5 6 2 2 1 true

/-! ### Claim C4 -/

theorem getD_set_self : ∀ (l : List Extr) (i : ℕ) (a d : Extr), i < l.length →
    (l.set i a).getD i d = a
  | [], _, _, _, h => absurd h (by simp)
  | _ :: _, 0, _, _, _ => rfl
  | _ :: xs, i + 1, a, d, h => getD_set_self xs i a d (by simpa using h)

theorem getD_mem : ∀ (l : List Extr) (i : ℕ) (d : Extr), i < l.length → l.getD i d ∈ l
  | [], _, _, h => absurd h (by simp)
  | x :: _, 0, _, _ => List.mem_cons_self x _
  | _ :: xs, i + 1, d, h =>
    List.mem_cons_of_mem _ (getD_mem xs i d (by simpa using h))

/-- In an eid-sorted extruder list containing `tid`, the C++ `lower_bound`
(`findIdx` of the first entry with `tid ≤ eid`) lands on an entry with exactly
id `tid`. -/
theorem findIdx_sorted : ∀ {l : List Extr},
    List.Sorted (fun a b : Extr => a.eid ≤ b.eid) l →
    ∀ {tid : ℕ}, (∃ e ∈ l, e.eid = tid) →
    l.findIdx (fun e => decide (tid ≤ e.eid)) < l.length ∧
    (l.getD (l.findIdx (fun e => decide (tid ≤ e.eid))) default).eid = tid := by
  intro l hs
  induction l with
  | nil => intro tid hmem; simp at hmem
  | cons a l ih =>
    intro tid hmem
    rw [List.findIdx_cons]
    by_cases h : tid ≤ a.eid
    · rw [show (decide (tid ≤ a.eid)) = true by simp [h]]
      refine ⟨by simp, ?_⟩
      obtain ⟨e, he, heid⟩ := hmem
      rcases List.mem_cons.mp he with rfl | he
      · simpa using heid
      · have h1 : a.eid ≤ e.eid := (List.sorted_cons.mp hs).1 e he
        have h2 : a.eid = tid := le_antisymm (heid ▸ h1) h
        simpa using h2
    · rw [show (decide (tid ≤ a.eid)) = false by simp [h]]
      obtain ⟨e, he, heid⟩ := hmem
      rcases List.mem_cons.mp he with rfl | he
      · exact absurd (heid ▸ le_rfl) h
      · have ihr := ih (List.sorted_cons.mp hs).2 ⟨e, he, heid⟩
        refine ⟨by simpa using Nat.succ_lt_succ ihr.1, ?_⟩
        simpa using ihr.2

/-- The extruder collection built by `set_extruders` is sorted by id. -/
theorem set_extruders_sorted (w : Writer) (ids : List ℕ) :
    List.Sorted (fun a b : Extr => a.eid ≤ b.eid) (w.set_extruders ids).extruders := by
  show List.Sorted _ ((ids.insertionSort (· ≤ ·)).map mkExtr)
  exact List.Pairwise.map _ (fun a b h => h) (List.sorted_insertionSort (· ≤ ·) ids)

theorem set_extruders_mem (w : Writer) (ids : List ℕ) (tid : ℕ) :
    (∃ e ∈ (w.set_extruders ids).extruders, e.eid = tid) ↔ tid ∈ ids := by
  show (∃ e ∈ (ids.insertionSort (· ≤ ·)).map mkExtr, e.eid = tid) ↔ _
  rw [← (List.perm_insertionSort (· ≤ ·) ids).mem_iff]
  constructor
  · rintro ⟨e, he, heid⟩
    obtain ⟨i, hi, rfl⟩ := List.mem_map.mp he
    exact heid ▸ hi
  · intro hmem
    exact ⟨_, List.mem_map_of_mem _ hmem, rfl⟩

/-- `reset_e(true)` keeps the selected-extruder reference and its id, and —
except for the Mach3/MakerWare/Sailfish dialects, where it emits and changes
nothing — forces the accumulated position to zero. -/
theorem reset_e_force_cur {w : Writer} {i : ℕ} (hcur : w.cur = some i)
    (hi : i < w.extruders.length) :
    (w.reset_e true).1.cur = w.cur ∧
    (w.reset_e true).1.curExtr.eid = w.curExtr.eid ∧
    ((w.cfg.flavor = .mach3 ∨ w.cfg.flavor = .makerWare ∨ w.cfg.flavor = .sailfish) ∨
      (w.reset_e true).1.curExtr.epos = 0) := by
  unfold Writer.reset_e
  split
  case isTrue h => exact ⟨rfl, rfl, Or.inl h⟩
  case isFalse h =>
    have hcw : w.curExtr = w.extruders.getD i default := by
      unfold Writer.curExtr
      rw [hcur]
    simp only [hcur]
    rw [if_neg (by simp)]
    split
    · refine ⟨rfl, ?_, Or.inr ?_⟩
      · show ((w.extruders.set i { w.extruders.getD i default with epos := 0 }).getD i default).eid = w.curExtr.eid
        rw [getD_set_self _ _ _ _ hi, hcw]
      · show ((w.extruders.set i { w.extruders.getD i default with epos := 0 }).getD i default).epos = 0
        rw [getD_set_self _ _ _ _ hi]
    · refine ⟨rfl, ?_, Or.inr ?_⟩
      · show ((w.extruders.set i { w.extruders.getD i default with epos := 0 }).getD i default).eid = w.curExtr.eid
        rw [getD_set_self _ _ _ _ hi, hcw]
      · show ((w.extruders.set i { w.extruders.getD i default with epos := 0 }).getD i default).epos = 0
        rw [getD_set_self _ _ _ _ hi]

/-- **C4** (counterexample): with the single configured extruder id 1,
`multiple_extruders` is already true (`max id > 0` even though only one
extruder is configured), so `toolchange(1)` emits the tool-select command and
the reset — refuting "only when more than one extruder is configured". -/
theorem C4_counterexample_single_extruder :
    (wBase.set_extruders [1]).extruders.length = 1 ∧
    ((wBase.set_extruders [1]).toolchange 1).map Prod.snd =
      some [.toolSel "T" 1, .resetECmd] := by
  constructor
  · rfl
  · norm_num +decide [wBase, cfg0, Writer.set_extruders, Writer.toolchange, Writer.reset_e,
      Writer.toolchangeCmdPre, List.findIdx, List.findIdx.go, List.insertionSort, mkExtr,
      List.getD]

/-- **C4** (amended): `toolchange(id)` with an unconfigured id is a failed
assertion (`none`); with a configured id it switches the active-extruder
reference to the extruder with that id, and it emits the tool-select command
followed by the forced extruder-position reset exactly when the
`multiple_extruders` flag is set — which `set_extruders` derives as "the
largest configured id exceeds 0", not "more than one extruder is configured"
— returning the empty output otherwise.  (The reset forces the accumulated E
position to zero except for the Mach3/MakerWare/Sailfish dialects, whose
`reset_e` is a no-op.) -/
theorem C4_toolchange_assert_and_select (w : Writer) (ids : List ℕ) (tid : ℕ) :
    (tid ∉ ids → (w.set_extruders ids).toolchange tid = none) ∧
    (tid ∈ ids →
      ∃ p : Writer × List GLine,
        (w.set_extruders ids).toolchange tid = some p ∧
        p.1.curExtr.eid = tid ∧
        (0 < ids.foldr max 0 →
          (∃ rest, p.2 = .toolSel (w.set_extruders ids).toolchangeCmdPre tid :: rest) ∧
          (¬(w.cfg.flavor = .mach3 ∨ w.cfg.flavor = .makerWare ∨ w.cfg.flavor = .sailfish) →
            p.1.curExtr.epos = 0)) ∧
        (ids.foldr max 0 = 0 → p.2 = [])) := by
  constructor
  · intro hnot
    by_cases hc : (w.set_extruders ids).extruders.findIdx
        (fun e => decide (tid ≤ e.eid)) < (w.set_extruders ids).extruders.length ∧
        ((w.set_extruders ids).extruders.getD
          ((w.set_extruders ids).extruders.findIdx (fun e => decide (tid ≤ e.eid)))
          default).eid = tid
    · exfalso
      refine hnot ((set_extruders_mem w ids tid).mp ⟨_, getD_mem _ _ _ hc.1, hc.2⟩)
    · simp only [Writer.toolchange]
      rw [if_neg hc]
  · intro hmem
    have hfi := findIdx_sorted (set_extruders_sorted w ids)
      ((set_extruders_mem w ids tid).mpr hmem)
    have hcur : ((w.set_extruders ids).selTool
        ((w.set_extruders ids).extruders.findIdx fun e => decide (tid ≤ e.eid))).cur =
        some ((w.set_extruders ids).extruders.findIdx fun e => decide (tid ≤ e.eid)) := rfl
    have heid : ((w.set_extruders ids).selTool
        ((w.set_extruders ids).extruders.findIdx fun e => decide (tid ≤ e.eid))).curExtr.eid =
        tid := by
      unfold Writer.curExtr
      rw [hcur]
      exact hfi.2
    by_cases hmul : 0 < ids.foldr max 0
    · have hb : ((w.set_extruders ids).selTool
          ((w.set_extruders ids).extruders.findIdx fun e => decide (tid ≤ e.eid))).multiple =
          true := by
        show decide (0 < ids.foldr max 0) = true
        simpa using hmul
      have hrst := reset_e_force_cur hcur hfi.1
      have heq : (w.set_extruders ids).toolchange tid =
          some ((((w.set_extruders ids).selTool
              ((w.set_extruders ids).extruders.findIdx fun e => decide (tid ≤ e.eid))).reset_e
                true).1,
            .toolSel (w.set_extruders ids).toolchangeCmdPre tid ::
              (((w.set_extruders ids).selTool
                ((w.set_extruders ids).extruders.findIdx fun e => decide (tid ≤ e.eid))).reset_e
                  true).2) := by
        simp only [Writer.toolchange]
        rw [if_pos ⟨hfi.1, hfi.2⟩, if_pos hb]
      refine ⟨_, heq, ?_, ?_, ?_⟩
      · rw [hrst.2.1]
        exact heid
      · intro hpos
        exact ⟨⟨_, rfl⟩, fun hfl => hrst.2.2.resolve_left hfl⟩
      · intro h0
        rw [h0] at hmul
        exact absurd hmul (lt_irrefl 0)
    · have hb : ((w.set_extruders ids).selTool
          ((w.set_extruders ids).extruders.findIdx fun e => decide (tid ≤ e.eid))).multiple =
          false := by
        show decide (0 < ids.foldr max 0) = false
        simpa using hmul
      have heq : (w.set_extruders ids).toolchange tid =
          some ((w.set_extruders ids).selTool
            ((w.set_extruders ids).extruders.findIdx fun e => decide (tid ≤ e.eid)), []) := by
        simp only [Writer.toolchange]
        rw [if_pos ⟨hfi.1, hfi.2⟩, if_neg (by rw [hb]; simp)]
      refine ⟨_, heq, heid, ?_, fun _ => rfl⟩
      intro hpos
      exact absurd hpos hmul

/-- Witness for `C4_toolchange_assert_and_select`: extruders {0, 2}; id 5 is
unconfigured (assertion), id 2 is configured. -/
theorem C4_toolchange_assert_and_select_witness :
    (wBase.set_extruders [0, 2]).toolchange 5 = none ∧
    (∃ p : Writer × List GLine,
        (wBase.set_extruders [0, 2]).toolchange 2 = some p ∧
        p.1.curExtr.eid = 2 ∧
        (0 < [0, 2].foldr max 0 →
          (∃ rest, p.2 = .toolSel (wBase.set_extruders [0, 2]).toolchangeCmdPre 2 :: rest) ∧
          (¬(wBase.cfg.flavor = .mach3 ∨ wBase.cfg.flavor = .makerWare ∨
              wBase.cfg.flavor = .sailfish) →
            p.1.curExtr.epos = 0)) ∧
        ([0, 2].foldr max 0 = 0 → p.2 = [])) :=
  ⟨(C4_toolchange_assert_and_select wBase [0, 2] 5).1 (by decide),
   (C4_toolchange_assert_and_select wBase [0, 2] 2).2 (by decide)⟩

/-! ### C6: `set_pressure_advance` value formatting -/

/-- Evaluation rule for `renderDefault4` on a positive value whose 4-digit
mantissa does not round up to a fifth digit and whose exponent selects the
fixed-point branch of `%g`. -/
theorem renderDefault4_pos {q : ℚ} {e0 n0 : ℤ} (hq : 0 < q)
    (he : floorLog10 q = e0) (hn : roundHalfEven (q / 10 ^ (e0 - 3)) = n0)
    (h10 : n0 ≠ 10000) (hX : -4 ≤ e0 ∧ e0 < 4) :
    renderDefault4 q = fixedPointF n0.toNat (3 - e0).toNat := by
  simp only [renderDefault4]
  rw [if_neg (ne_of_gt hq), if_neg (not_lt.mpr hq.le), abs_of_pos hq, he, hn,
    if_neg h10, if_neg h10, if_pos hX, List.nil_append]

theorem floorLog10_pa : floorLog10 (1234567 / 100000) = 1 := by
  unfold floorLog10
  rw [if_pos (by norm_num : (1 : ℚ) ≤ 1234567 / 100000)]
  rw [show ⌊(1234567 / 100000 : ℚ)⌋ = 12 by rw [Int.floor_eq_iff]; norm_num]
  decide

theorem roundHalfEven_pa :
    roundHalfEven ((1234567 / 100000 : ℚ) / 10 ^ ((1 : ℤ) - 3)) = 1235 := by
  have harg : (1234567 / 100000 : ℚ) / 10 ^ ((1 : ℤ) - 3) = 1234567 / 1000 := by
    norm_num
  rw [harg]
  unfold roundHalfEven
  rw [show ⌊(1234567 / 1000 : ℚ)⌋ = 1234 by rw [Int.floor_eq_iff]; norm_num]
  rw [if_neg (by norm_num), if_pos (by norm_num)]
  norm_num

/-- **C6** counterexample: at `pa = 12.34567` the emitted value is the
4-significant-digit default-format rendering `12.35`, not the fixed
four-decimal rendering `12.3457` the claim asserts. -/
theorem C6_counterexample_significant_digits :
    wBase.set_pressure_advance (1234567 / 100000) =
      [.paCmd "M900 K" (renderDefault4 (1234567 / 100000)) ""] ∧
    renderDefault4 (1234567 / 100000) = ['1', '2', '.', '3', '5'] ∧
    fixed4 (1234567 / 100000) = ['1', '2', '.', '3', '4', '5', '7'] := by
  refine ⟨?_, ?_, ?_⟩
  · simp only [Writer.set_pressure_advance]
    rw [if_neg (by norm_num : ¬ (1234567 / 100000 : ℚ) < 0)]
    rfl
  · rw [renderDefault4_pos (by norm_num) floorLog10_pa roundHalfEven_pa
      (by decide) (by decide)]
    decide
  · unfold fixed4
    rw [if_neg (by norm_num : ¬ (1234567 / 100000 : ℚ) < 0),
      show |(1234567 / 100000 : ℚ)| = 1234567 / 100000 from abs_of_pos (by norm_num),
      show roundHalfAway ((1234567 / 100000 : ℚ) * 10 ^ 4) = 123457 by
        unfold roundHalfAway
        rw [if_pos (by norm_num : (0 : ℚ) ≤ 1234567 / 100000 * 10 ^ 4)]
        rw [show ⌊(1234567 / 100000 : ℚ) * 10 ^ 4 + 1 / 2⌋ = 123457 by
          rw [Int.floor_eq_iff]; norm_num]]
    decide

/-- **C6** (amended): `set_pressure_advance(pa)` is empty exactly when
`pa < 0`; otherwise it emits exactly one dialect-selected pressure-advance
command, whose numeric value is the default-float-format
(`%g`, 4 significant digits) rendering of `pa`, not a fixed 4-decimal one. -/
theorem C6_set_pressure_advance_amended (w : Writer) (pa : ℚ) :
    (pa < 0 → w.set_pressure_advance pa = []) ∧
    (¬ pa < 0 →
      ∃ pre post, w.set_pressure_advance pa =
        [.paCmd pre (renderDefault4 pa) post]) := by
  constructor
  · intro h
    simp only [Writer.set_pressure_advance]
    rw [if_pos h]
  · intro h
    simp only [Writer.set_pressure_advance]
    rw [if_neg h]
    split
    · exact ⟨_, _, rfl⟩
    · split
      · exact ⟨_, _, rfl⟩
      · split
        · exact ⟨_, _, rfl⟩
        · exact ⟨_, _, rfl⟩

/-- Witness for `C6_set_pressure_advance_amended` at `pa = -1` and
`pa = 1/2`. -/
theorem C6_set_pressure_advance_amended_witness :
    wBase.set_pressure_advance (-1) = [] ∧
    ∃ pre post, wBase.set_pressure_advance (1 / 2) =
      [.paCmd pre (renderDefault4 (1 / 2)) post] :=
  ⟨(C6_set_pressure_advance_amended wBase (-1)).1 (by norm_num),
   (C6_set_pressure_advance_amended wBase (1 / 2)).2 (by norm_num)⟩

/-! ### The spiral-vase layer transform (SpiralVase.cpp)

The transform reads a layer as a list of structured lines.  `GCodeReader` and
its `GCodeLine` accessors live outside `src/`, so the reader model below is
built from the spec's description of the position tracker; everything from
`distance` through `process_layer` is translated from `SpiralVase.cpp`.  The
two transcendental quantities (`sqrt` inside `distance` and `dist_XY`) are
abstracted as an explicit distance oracle `distP : Pt → Pt → ℚ` on 2-D
points, threaded through every function exactly where the C++ code calls
`distance`/`dist_XY`. -/

abbrev Pt := ℚ × ℚ

/-- Modelled from the spec: one parsed G-code line as the reader hands it to
the per-line callback — a command word plus optional X/Y/Z/E/F fields
(`GCodeReader::GCodeLine`); `set` on an axis is a field update, absent axes
read as `0` through `getD`. -/
structure SLine where
  cmd : String := ""
  x : Option ℚ := none
  y : Option ℚ := none
  z : Option ℚ := none
  e : Option ℚ := none
  f : Option ℚ := none
deriving Repr, DecidableEq

/-- Modelled from the spec: the reader's position tracker (X/Y/Z/E/F),
zero-initialized. -/
structure RState where
  x : ℚ := 0
  y : ℚ := 0
  z : ℚ := 0
  e : ℚ := 0
  f : ℚ := 0
deriving Repr, DecidableEq

/-- Modelled from the spec: position update after a line is processed (the
reader updates itself from the original parsed line after the callback
returns); in relative-E mode the E axis accumulates. -/
def RState.upd (relE : Bool) (r : RState) (l : SLine) : RState :=
  { x := l.x.getD r.x, y := l.y.getD r.y, z := l.z.getD r.z,
    e := if relE then r.e + l.e.getD 0 else l.e.getD r.e,
    f := l.f.getD r.f }

/-- Modelled from the spec: `GCodeLine::dist_E` — the extrusion delta of a
line relative to the tracked position (the raw E value in relative mode);
`extruding` is `cmd_is("G1") && dist_E > 0`. -/
def eDel (relE : Bool) (r : RState) (l : SLine) : ℚ :=
  if relE then l.e.getD 0 else l.e.getD r.e - r.e

/-- Modelled from the spec: `GCodeLine::dist_XY` — Euclidean distance from
the tracked position to the line's target, absent axes contributing zero
delta; the `sqrt` is the oracle `distP`. -/
def distXY (distP : Pt → Pt → ℚ) (r : RState) (l : SLine) : ℚ :=
  distP (l.x.getD r.x, l.y.getD r.y) (r.x, r.y)

/-- Modelled from the spec: feeding a buffer to the reader updates the
position tracker line by line. -/
def readAll (relE : Bool) (r : RState) : List SLine → RState
  | [] => r
  | l :: ls => readAll relE (RState.upd relE r l) ls

/-- `nearest_point_on_line` (SpiralVase.cpp:33-42): perpendicular foot on
segment `ab` clamped to the segment, plus its distance to `c`.  A degenerate
segment (`dot(ab,ab) = 0`) makes the C++ computation produce NaN throughout,
which the caller's `currentDist < min` comparison then rejects; that is
modelled as `none`. -/
def nearest_point_on_line (distP : Pt → Pt → ℚ) (c a b : Pt) : Option (Pt × ℚ) :=
  if (b.1 - a.1) * (b.1 - a.1) + (b.2 - a.2) * (b.2 - a.2) = 0 then none
  else
    let t0 := ((c.1 - a.1) * (b.1 - a.1) + (c.2 - a.2) * (b.2 - a.2)) /
      ((b.1 - a.1) * (b.1 - a.1) + (b.2 - a.2) * (b.2 - a.2))
    let t1 := if 1 < t0 then 1 else t0
    let t := if t1 < 0 then 0 else t1
    let closest : Pt := (a.1 + (b.1 - a.1) * t, a.2 + (b.2 - a.2) * t)
    some (closest, distP c closest)

/-- `std::numeric_limits<float>::max() = (2 - 2^-23)·2^127`, the loop's
initial minimum. -/
def fltMax : ℚ := 2 ^ 128 - 2 ^ 104

/-- The fold inside `nearest_point_on_polygon` (SpiralVase.cpp:53-61) over
consecutive segments, carrying `(closest, min, found)`. -/
def nppAux (distP : Pt → Pt → ℚ) (p : Pt) : List Pt → Pt × ℚ × Bool → Pt × ℚ × Bool
  | a :: b :: rest, acc =>
    nppAux distP p (b :: rest)
      (match nearest_point_on_line distP p a b with
       | some cd => if cd.2 < acc.2.1 then (cd.1, cd.2, true) else acc
       | none => acc)
  | _, acc => acc

/-- `nearest_point_on_polygon` (SpiralVase.cpp:46-65): `found = false`
(fewer than two points, or every segment rejected) is modelled as `none`. -/
def nearest_point_on_polygon (distP : Pt → Pt → ℚ) (p : Pt) (points : List Pt) :
    Option (Pt × ℚ) :=
  if points.length < 2 then none
  else
    let r := nppAux distP p points ((0, 0), fltMax, false)
    if r.2.2 then some (r.1, r.2.1) else none

/-- The per-layer constants captured by the rewrite-pass lambda
(SpiralVase.cpp:128): start `z`, totals, transition flags, smoothing flag and
the previous layer's path. -/
structure SVCtx where
  relE : Bool
  z : ℚ
  total : ℚ
  height : ℚ
  transIn : Bool
  transOut : Bool
  smooth : Bool
  prevLayer : Option (List Pt)

/-- The smoothing block (SpiralVase.cpp:162-179): nearest point on the
previous layer's polyline; closer than `0.8` → interpolate XY by `factor`,
rescale E by the modified segment length, and advance `last_point` to the
target; otherwise leave the line alone and advance `last_point` to the
current point.  No previous layer leaves `last_point` untouched.  Returns
the (possibly modified) line and the new `last_point`. -/
def smoothPoint (distP : Pt → Pt → ℚ) (prevLayer : Option (List Pt))
    (factor dxy : ℚ) (lastP p : Pt) (l2 : SLine) : SLine × Pt :=
  match prevLayer with
  | none => (l2, lastP)
  | some prev =>
    match nearest_point_on_polygon distP p prev with
    | none => (l2, p)
    | some nd =>
      if nd.2 < 4 / 5 then
        let tg : Pt :=
          (nd.1.1 * (1 - factor) + p.1 * factor, nd.1.2 * (1 - factor) + p.2 * factor)
        let l3 := { l2 with x := some tg.1, y := some tg.2 }
        ({ l3 with e := some (l2.e.getD 0 * distP lastP tg / dxy) }, tg)
      else (l2, p)

/-- The rewrite pass (SpiralVase.cpp:128-198) over the layer's lines,
threading the reader, the accumulated length and `last_point`; returns
`(new_gcode, transition_gcode, current_layer)`.  The initial Z move is
replaced by a move to the previous top `ctx.z`; extruding horizontal moves
get the ramped Z (and the transition-in and -out E scaling and the smoothing);
non-extruding horizontal moves are dropped; everything else passes through
(and is copied to the transition stream on the last layer). -/
def rewriteLines (distP : Pt → Pt → ℚ) (ctx : SVCtx) :
    RState → ℚ → Pt → List SLine → List SLine × List SLine × List Pt
  | _, _, _, [] => ([], [], [])
  | r, len, lastP, l :: ls =>
    if l.cmd = "G1" then
      if l.z.isSome then
        let rest := rewriteLines distP ctx (RState.upd ctx.relE r l) len lastP ls
        ({ l with z := some ctx.z } :: rest.1, rest.2.1, rest.2.2)
      else
        if 0 < distXY distP r l then
          if 0 < eDel ctx.relE r l then
            let dxy := distXY distP r l
            let factor := (len + dxy) / ctx.total
            let l1 := if ctx.transIn then { l with e := some (l.e.getD 0 * factor) } else l
            let trans := if ctx.transIn then ([] : List SLine)
              else if ctx.transOut then [{ l with e := some (l.e.getD 0 * (1 - factor)) }]
              else []
            let l2 := { l1 with z := some (ctx.z + factor * ctx.height) }
            if ctx.smooth then
              let p : Pt := (l.x.getD 0, l.y.getD 0)
              let sp := smoothPoint distP ctx.prevLayer factor dxy lastP p l2
              let rest := rewriteLines distP ctx (RState.upd ctx.relE r l) (len + dxy) sp.2 ls
              (sp.1 :: rest.1, trans ++ rest.2.1, p :: rest.2.2)
            else
              let rest := rewriteLines distP ctx (RState.upd ctx.relE r l) (len + dxy) lastP ls
              (l2 :: rest.1, trans ++ rest.2.1, rest.2.2)
          else
            rewriteLines distP ctx (RState.upd ctx.relE r l) len lastP ls
        else
          let rest := rewriteLines distP ctx (RState.upd ctx.relE r l) len lastP ls
          (l :: rest.1, if ctx.transOut then l :: rest.2.1 else rest.2.1, rest.2.2)
    else
      let rest := rewriteLines distP ctx (RState.upd ctx.relE r l) len lastP ls
      (l :: rest.1, if ctx.transOut then l :: rest.2.1 else rest.2.1, rest.2.2)

/-- The pre-scan fold (SpiralVase.cpp:89-107) on a disposable reader clone:
accumulates `(total_layer_length, layer_height, z)` with the first-Z latch
`set_z`. -/
def prescanAux (distP : Pt → Pt → ℚ) (relE : Bool) :
    RState → ℚ → ℚ → ℚ → Bool → List SLine → ℚ × ℚ × ℚ
  | _, t, h, z, _, [] => (t, h, z)
  | r, t, h, z, sz, l :: ls =>
    if l.cmd = "G1" then
      if 0 < eDel relE r l then
        prescanAux distP relE (RState.upd relE r l) (t + distXY distP r l) h z sz ls
      else if l.z.isSome then
        prescanAux distP relE (RState.upd relE r l) t (h + (l.z.getD r.z - r.z))
          (if sz then z else l.z.getD r.z) true ls
      else prescanAux distP relE (RState.upd relE r l) t h z sz ls
    else prescanAux distP relE (RState.upd relE r l) t h z sz ls

def prescan (distP : Pt → Pt → ℚ) (relE : Bool) (r : RState) (lines : List SLine) :
    ℚ × ℚ × ℚ :=
  prescanAux distP relE r 0 0 0 false lines

/-- `last_point`'s initial value (SpiralVase.cpp:127): the previous layer's
last point when one exists, else the origin. -/
def lastPt : Option (List Pt) → Pt
  | some ps => ps.getLastD (0, 0)
  | none => (0, 0)

/-- The spiral-vase transform state surviving across layers: the enable and
smoothing switches, the transition-in marker, relative-E configuration, the
reader and the previous layer's path. -/
structure SV where
  enabled : Bool := false
  smooth : Bool := false
  transitionLayer : Bool := false
  relE : Bool := false
  reader : RState := {}
  prevLayer : Option (List Pt) := none

/-- The rewrite-pass constants as `process_layer` builds them
(SpiralVase.cpp:110-127): `z0 = first_Z - layer_height`, and the transition
flags gated on relative extrusion. -/
def SV.ctx (sv : SV) (total height z0 : ℚ) (lastLayer : Bool) : SVCtx :=
  { relE := sv.relE, z := z0, total := total, height := height,
    transIn := sv.transitionLayer && sv.relE, transOut := lastLayer && sv.relE,
    smooth := sv.smooth, prevLayer := sv.prevLayer }

/-- `SpiralVase::process_layer` (SpiralVase.cpp:67-204): disabled → feed the
reader and return the layer unchanged; enabled → pre-scan, rewrite, output
`new_gcode ++ transition_gcode`, and adopt the collected path as the new
previous layer. -/
def SV.process_layer (distP : Pt → Pt → ℚ) (sv : SV) (lines : List SLine)
    (lastLayer : Bool) : SV × List SLine :=
  if sv.enabled then
    let pre := prescan distP sv.relE sv.reader lines
    let res := rewriteLines distP (sv.ctx pre.1 pre.2.1 (pre.2.2 - pre.2.1) lastLayer)
      sv.reader 0 (lastPt sv.prevLayer) lines
    ({ sv with reader := readAll sv.relE sv.reader lines, prevLayer := some res.2.2 },
      res.1 ++ res.2.1)
  else
    ({ sv with reader := readAll sv.relE sv.reader lines }, lines)

/-! ### C7: the Z ramp, and C9: the smoothing skip -/

/-- Spec-side reference: a well-formed layer tail — every line a `G1` without
Z and with positive XY travel, each either extruding or a travel move. -/
def goodTail (distP : Pt → Pt → ℚ) (relE : Bool) : RState → List SLine → Prop
  | _, [] => True
  | r, l :: ls =>
    l.cmd = "G1" ∧ l.z = none ∧ 0 < distXY distP r l ∧
      goodTail distP relE (RState.upd relE r l) ls

/-- Spec-side reference: the total XY length of the extruding moves of a
tail. -/
def tailLen (distP : Pt → Pt → ℚ) (relE : Bool) : RState → List SLine → ℚ
  | _, [] => 0
  | r, l :: ls =>
    if 0 < eDel relE r l then
      distXY distP r l + tailLen distP relE (RState.upd relE r l) ls
    else tailLen distP relE (RState.upd relE r l) ls

/-- Spec-side reference for C7, written from the claim: each extruding
horizontal move at cumulative traveled length `len + d` gets
`Z = z0 + ((len+d)/L)·H`; travel moves disappear. -/
def specZs (distP : Pt → Pt → ℚ) (relE : Bool) (z0 L H : ℚ) :
    RState → ℚ → List SLine → List SLine
  | _, _, [] => []
  | r, len, l :: ls =>
    if 0 < eDel relE r l then
      { l with z := some (z0 + (len + distXY distP r l) / L * H) } ::
        specZs distP relE z0 L H (RState.upd relE r l) (len + distXY distP r l) ls
    else specZs distP relE z0 L H (RState.upd relE r l) len ls

theorem prescanAux_goodTail (distP : Pt → Pt → ℚ) (relE : Bool) (r : RState)
    (t h z : ℚ) (sz : Bool) (ls : List SLine)
    (hg : goodTail distP relE r ls) :
    prescanAux distP relE r t h z sz ls = (t + tailLen distP relE r ls, h, z) := by
  induction ls generalizing r t with
  | nil => simp [prescanAux, tailLen]
  | cons l ls ih =>
    simp only [goodTail] at hg
    obtain ⟨hcmd, hz, hd, hg'⟩ := hg
    simp only [prescanAux, tailLen]
    rw [if_pos hcmd]
    by_cases he : 0 < eDel relE r l
    · rw [if_pos he, if_pos he, ih _ _ hg', add_assoc]
    · rw [if_neg he, if_neg he,
        if_neg (show ¬ l.z.isSome = true by rw [hz]; simp), ih _ _ hg']

theorem rewriteLines_goodTail (distP : Pt → Pt → ℚ) (ctx : SVCtx) (r : RState)
    (len : ℚ) (lastP : Pt) (ls : List SLine)
    (hg : goodTail distP ctx.relE r ls) (hsm : ctx.smooth = false)
    (hti : ctx.transIn = false) (hto : ctx.transOut = false) :
    rewriteLines distP ctx r len lastP ls =
      (specZs distP ctx.relE ctx.z ctx.total ctx.height r len ls, [], []) := by
  induction ls generalizing r len with
  | nil => simp [rewriteLines, specZs]
  | cons l ls ih =>
    simp only [goodTail] at hg
    obtain ⟨hcmd, hz, hd, hg'⟩ := hg
    simp only [rewriteLines, specZs]
    rw [if_pos hcmd, if_neg (show ¬ l.z.isSome = true by rw [hz]; simp), if_pos hd]
    by_cases he : 0 < eDel ctx.relE r l
    · rw [if_pos he, if_pos he,
        if_neg (show ¬ ctx.transIn = true by rw [hti]; exact Bool.false_ne_true),
        if_neg (show ¬ ctx.transIn = true by rw [hti]; exact Bool.false_ne_true),
        if_neg (show ¬ ctx.transOut = true by rw [hto]; exact Bool.false_ne_true),
        if_neg (show ¬ ctx.smooth = true by rw [hsm]; exact Bool.false_ne_true),
        ih _ _ hg']
      simp
    · rw [if_neg he, if_neg he, ih _ _ hg']

/-- **C7**: with spiral vase enabled, XY smoothing off and no transition
ramp, a layer made of one initial Z move followed by horizontal `G1` moves is
rewritten so that the initial move goes (redundantly) to the previous top
`z0` — the reader's Z, since the pre-scan's `z0 = first_Z - layer_height` —
and every surviving extruding move at cumulative extruding length `len`
carries exactly `Z = z0 + (len / L) * H`, where `L` is the total extruding XY
length and `H = first_Z - z0` the climbed height (`specZs` is the claim's
formula; travel moves are dropped). -/
theorem C7_spiral_z_ramp (distP : Pt → Pt → ℚ) (sv : SV) (zline : SLine)
    (rest : List SLine) (zf : ℚ)
    (hen : sv.enabled = true) (hsm : sv.smooth = false)
    (htl : sv.transitionLayer = false)
    (hcmd : zline.cmd = "G1") (hzf : zline.z = some zf)
    (hne : ¬ 0 < eDel sv.relE sv.reader zline)
    (hg : goodTail distP sv.relE (RState.upd sv.relE sv.reader zline) rest) :
    (sv.process_layer distP (zline :: rest) false).2 =
      { zline with z := some sv.reader.z } ::
        specZs distP sv.relE sv.reader.z
          (tailLen distP sv.relE (RState.upd sv.relE sv.reader zline) rest)
          (zf - sv.reader.z) (RState.upd sv.relE sv.reader zline) 0 rest := by
  have hpre : prescan distP sv.relE sv.reader (zline :: rest) =
      (tailLen distP sv.relE (RState.upd sv.relE sv.reader zline) rest,
        zf - sv.reader.z, zf) := by
    unfold prescan
    simp only [prescanAux]
    rw [if_pos hcmd, if_neg hne, if_pos (show zline.z.isSome = true by rw [hzf]; rfl),
      prescanAux_goodTail]
    · simp [hzf]
    · exact hg
  have hp1 : (prescan distP sv.relE sv.reader (zline :: rest)).1 =
      tailLen distP sv.relE (RState.upd sv.relE sv.reader zline) rest := by rw [hpre]
  have hp2 : (prescan distP sv.relE sv.reader (zline :: rest)).2.1 =
      zf - sv.reader.z := by rw [hpre]
  have hp3 : (prescan distP sv.relE sv.reader (zline :: rest)).2.2 = zf := by rw [hpre]
  simp only [SV.process_layer]
  rw [if_pos hen, hp1, hp2, hp3,
    show zf - (zf - sv.reader.z) = sv.reader.z from by ring]
  simp only [rewriteLines]
  rw [if_pos hcmd, if_pos (show zline.z.isSome = true by rw [hzf]; rfl),
    rewriteLines_goodTail]
  · simp [SV.ctx]
  · exact hg
  · exact hsm
  · show (sv.transitionLayer && sv.relE) = false
    rw [htl]
    rfl
  · show (false && sv.relE) = false
    rfl

/-- Witness for `C7_spiral_z_ramp`: relative E, a `G1 Z2` move then one
extruding `G1 X1 E1` move, taxicab distance oracle. -/
theorem C7_spiral_z_ramp_witness :
    (SV.process_layer (fun a b => |a.1 - b.1| + |a.2 - b.2|)
      { enabled := true, relE := true }
      [{ cmd := "G1", z := some 2 }, { cmd := "G1", x := some 1, e := some 1 }]
      false).2 =
    { cmd := "G1", z := some ({ enabled := true, relE := true } : SV).reader.z } ::
      specZs (fun a b => |a.1 - b.1| + |a.2 - b.2|) true
        ({ enabled := true, relE := true } : SV).reader.z
        (tailLen (fun a b => |a.1 - b.1| + |a.2 - b.2|) true
          (RState.upd true ({ enabled := true, relE := true } : SV).reader
            { cmd := "G1", z := some 2 })
          [{ cmd := "G1", x := some 1, e := some 1 }])
        (2 - ({ enabled := true, relE := true } : SV).reader.z)
        (RState.upd true ({ enabled := true, relE := true } : SV).reader
          { cmd := "G1", z := some 2 })
        0 [{ cmd := "G1", x := some 1, e := some 1 }] :=
  C7_spiral_z_ramp (fun a b => |a.1 - b.1| + |a.2 - b.2|)
    { enabled := true, relE := true }
    { cmd := "G1", z := some 2 } [{ cmd := "G1", x := some 1, e := some 1 }] 2
    rfl rfl rfl rfl rfl
    (by simp [eDel])
    (by
      refine ⟨rfl, rfl, ?_, trivial⟩
      simp [distXY, RState.upd])

/-- **C9**: with XY smoothing enabled, an extruding horizontal move is
emitted with its XY point and its E value untouched (only Z rewritten)
whenever smoothing has nothing to snap to: no previous layer, no nearest
point found, or a nearest distance of at least `0.8`; and a previous-layer
path of fewer than two points never yields a nearest point. -/
theorem C9_smoothing_skip (distP : Pt → Pt → ℚ) (ctx : SVCtx) (r : RState)
    (len : ℚ) (lastP : Pt) (l : SLine) (ls : List SLine)
    (hsm : ctx.smooth = true) (hti : ctx.transIn = false)
    (hcmd : l.cmd = "G1") (hz : l.z = none)
    (hd : 0 < distXY distP r l) (he : 0 < eDel ctx.relE r l)
    (hskip : ctx.prevLayer = none ∨
      nearest_point_on_polygon distP (l.x.getD 0, l.y.getD 0) (ctx.prevLayer.getD []) =
        none ∨
      ∃ nd : Pt × ℚ,
        nearest_point_on_polygon distP (l.x.getD 0, l.y.getD 0) (ctx.prevLayer.getD []) =
          some nd ∧ ¬ nd.2 < 4 / 5) :
    (∀ (p : Pt) (pts : List Pt), pts.length < 2 →
      nearest_point_on_polygon distP p pts = none) ∧
    (rewriteLines distP ctx r len lastP (l :: ls)).1.head? =
      some { l with z := some (ctx.z + (len + distXY distP r l) / ctx.total * ctx.height) } := by
  constructor
  · intro p pts hlen
    unfold nearest_point_on_polygon
    rw [if_pos hlen]
  · simp only [rewriteLines]
    rw [if_pos hcmd, if_neg (show ¬ l.z.isSome = true by rw [hz]; simp), if_pos hd,
      if_pos he,
      if_neg (show ¬ ctx.transIn = true by rw [hti]; exact Bool.false_ne_true),
      if_pos hsm]
    have hsp : (smoothPoint distP ctx.prevLayer
        ((len + distXY distP r l) / ctx.total) (distXY distP r l) lastP
        (l.x.getD 0, l.y.getD 0)
        { l with z := some (ctx.z + (len + distXY distP r l) / ctx.total * ctx.height) }).1 =
        { l with z := some (ctx.z + (len + distXY distP r l) / ctx.total * ctx.height) } := by
      rcases hpl : ctx.prevLayer with _ | prev
      · rw [smoothPoint]
      · rw [hpl] at hskip
        rcases hskip with h1 | h2 | ⟨nd, h3, h4⟩
        · exact absurd h1 (by simp)
        · rw [Option.getD_some] at h2
          rw [smoothPoint, h2]
        · rw [Option.getD_some] at h3
          rw [smoothPoint, h3]
          simp only
          rw [if_neg h4]
    rw [hsp]
    rfl

/-- Witness for `C9_smoothing_skip`: a previous-layer path with a single
point (fewer than two), so no nearest point exists and the extruding move
passes through with its XY and E intact. -/
theorem C9_smoothing_skip_witness :
    (∀ (p : Pt) (pts : List Pt), pts.length < 2 →
      nearest_point_on_polygon (fun a b => |a.1 - b.1| + |a.2 - b.2|) p pts = none) ∧
    (rewriteLines (fun a b => |a.1 - b.1| + |a.2 - b.2|)
        { relE := true, z := 1, total := 1, height := 1, transIn := false, transOut := false, smooth := true, prevLayer := some [(5, 5)] }
        {} 0 (0, 0) [{ cmd := "G1", x := some 1, e := some 1 }]).1.head? =
      some { cmd := "G1", x := some 1, e := some 1, z := some (1 + (0 + distXY (fun a b => |a.1 - b.1| + |a.2 - b.2|) {} { cmd := "G1", x := some 1, e := some 1 }) / 1 * 1) } :=
  C9_smoothing_skip (fun a b => |a.1 - b.1| + |a.2 - b.2|)
    { relE := true, z := 1, total := 1, height := 1, transIn := false, transOut := false, smooth := true, prevLayer := some [(5, 5)] }
    {} 0 (0, 0) { cmd := "G1", x := some 1, e := some 1 } []
    rfl rfl rfl rfl
    (by simp [distXY])
    (by simp [eDel])
    (Or.inr (Or.inl (by rfl)))

end ORCA
